import Mathlib

/-!
Verification development for the ice_board configuration codec.

The definitions below are a shallow embedding of `device_data.py` and
`configuration.py`: Python matrices (lists of lists of booleans) become
`List (List Bool)`, dictionaries keyed by tile position become association
lists built in generator order, fallible operations return `Option` or
`Except`, and machine integers become `Nat`/`Int`.
-/

namespace IceBoard

/-- Tile kinds of the device grid, from `device_data.TileType`. -/
inductive TileType where
  | logic
  | io
  | ramT
  | ramB
deriving DecidableEq, Repr

/-- Grid position, from `device_data.TilePosition`. -/
structure TilePosition where
  x : Nat
  y : Nat
deriving DecidableEq, Repr

/-- Block-memory packing modes, from `device_data.BRAMMode`; the payload is
the Python enum value. -/
inductive BRAMMode where
  | bram256x16
  | bram512x8
  | bram1024x4
  | bram2048x2
deriving DecidableEq, Repr

/-- Numeric value of a packing mode, from the `BRAMMode` enum values. -/
def BRAMMode.val : BRAMMode → Nat
  | BRAMMode.bram256x16 => 0
  | BRAMMode.bram512x8 => 1
  | BRAMMode.bram1024x4 => 2
  | BRAMMode.bram2048x2 => 3

/-- Modelled from the spec: `ExtraBit` is imported by `configuration.py`
from `device_data`, but its definition is absent from the source tree; per
the spec it is a (bank, x, y) coordinate triple of a configuration bit with
no tile-local meaning.  The fields are integers, as produced by the
unchecked `int(...)` calls in the `.extra_bit` parser. -/
structure ExtraBit where
  bank : Int
  x : Int
  y : Int
deriving DecidableEq, Repr

/-- Oscillator frequency ranges, from `configuration.FreqRange`. -/
inductive FreqRange where
  | low
  | medium
  | high
deriving DecidableEq, Repr

/-- Numeric value of a frequency range (`IntEnum` values in the source). -/
def FreqRange.val : FreqRange → Nat
  | FreqRange.low => 0
  | FreqRange.medium => 1
  | FreqRange.high => 2

/-- Inverse of `FreqRange.val`, modelling the `FreqRange(payload)`
constructor call in `read_bin` (fails on unknown values). -/
def FreqRange.ofVal : Nat → Option FreqRange
  | 0 => some FreqRange.low
  | 1 => some FreqRange.medium
  | 2 => some FreqRange.high
  | _ => none

/-- Device geometry, from `device_data.DeviceSpec`. The `extra_bits` field
is modelled from the spec: the source `DeviceSpec` in `device_data.py` does
not declare it, yet `configuration.py` reads `self._spec.extra_bits`; per
the spec the geometry carries "the fixed set of extra (bank, x, y)
coordinates". -/
structure DeviceSpec where
  asc_name : List Char
  max_x : Nat
  max_y : Nat
  cram_width : Nat
  cram_height : Nat
  bram_width : Nat
  bram_height : Nat
  bram_cols : List Nat
  tile_type_width : TileType → Nat
  tile_height : Nat := 16
  extra_bits : List ExtraBit

/-- Tile kind of an interior position, from the classification in
`DeviceSpec.get_tile_types`. -/
def interiorTileType (spec : DeviceSpec) (x y : Nat) : TileType :=
  if x ∈ spec.bram_cols then
    if y % 2 == 0 then TileType.ramT else TileType.ramB
  else TileType.logic

/-- Generator `DeviceSpec.get_tile_types`: border I/O positions first (left
and right columns interleaved by ascending y, then bottom and top rows
interleaved by ascending x), then interior positions with x as the outer
loop. -/
def getTileTypes (spec : DeviceSpec) : List (TilePosition × TileType) :=
  ((List.range (spec.max_y - 1)).flatMap (fun i =>
    [(⟨0, 1 + i⟩, TileType.io), (⟨spec.max_x, 1 + i⟩, TileType.io)])) ++
  ((List.range (spec.max_x - 1)).flatMap (fun i =>
    [(⟨1 + i, 0⟩, TileType.io), (⟨1 + i, spec.max_y⟩, TileType.io)])) ++
  ((List.range (spec.max_x - 1)).flatMap (fun i =>
    (List.range (spec.max_y - 1)).map (fun j =>
      (⟨1 + i, 1 + j⟩, interiorTileType spec (1 + i) (1 + j)))))

/-- Tile widths of the 8k device, from the `SPECS` literal. -/
def widths8k : TileType → Nat
  | TileType.io => 18
  | TileType.ramT => 42
  | TileType.ramB => 42
  | TileType.logic => 54

/-- The 8k device description from `SPECS`, parametrised by the modelled
extra-bit set (missing from the source `device_data.py`). -/
def spec8k (eb : List ExtraBit) : DeviceSpec where
  asc_name := ['8', 'k']
  max_x := 33
  max_y := 33
  cram_width := 872
  cram_height := 272
  bram_width := 128
  bram_height := 256
  bram_cols := [8, 25]
  tile_type_width := widths8k
  extra_bits := eb

/-- Blank all-false tile matrix of the kind-specific shape. -/
def blankTileMatrix (spec : DeviceSpec) (tt : TileType) : List (List Bool) :=
  List.replicate spec.tile_height (List.replicate (spec.tile_type_width tt) false)

/-- Valid tile positions of the 8k device: the non-corner border positions
and the interior of the 33 by 33 grid. -/
def validPos8k (p : TilePosition) : Prop :=
  ((p.x = 0 ∨ p.x = 33) ∧ 1 ≤ p.y ∧ p.y ≤ 32) ∨
  ((p.y = 0 ∨ p.y = 33) ∧ 1 ≤ p.x ∧ p.x ≤ 32) ∨
  (1 ≤ p.x ∧ p.x ≤ 32 ∧ 1 ≤ p.y ∧ p.y ≤ 32)

instance (p : TilePosition) : Decidable (validPos8k p) := by
  unfold validPos8k
  infer_instance

/-- Tile kind of any valid 8k position: I/O on the border, otherwise the
interior classification. -/
def classify8k (p : TilePosition) : TileType :=
  if p.x = 0 ∨ p.x = 33 ∨ p.y = 0 ∨ p.y = 33 then TileType.io
  else interiorTileType (spec8k []) p.x p.y

/-- The tile enumeration order the spec describes (bottom row, top row,
left column, right column, then interior row-major), written from the
spec's words for comparison with the source generator. -/
def claimedTileTypes (spec : DeviceSpec) : List (TilePosition × TileType) :=
  ((List.range (spec.max_x - 1)).map (fun i => (⟨1 + i, 0⟩, TileType.io))) ++
  ((List.range (spec.max_x - 1)).map (fun i => (⟨1 + i, spec.max_y⟩, TileType.io))) ++
  ((List.range (spec.max_y - 1)).map (fun i => (⟨0, 1 + i⟩, TileType.io))) ++
  ((List.range (spec.max_y - 1)).map (fun i => (⟨spec.max_x, 1 + i⟩, TileType.io))) ++
  ((List.range (spec.max_y - 1)).flatMap (fun j =>
    (List.range (spec.max_x - 1)).map (fun i =>
      (⟨1 + i, 1 + j⟩, interiorTileType spec (1 + i) (1 + j)))))

/-! ## Python slice semantics

`configuration.py` manipulates Python `slice` objects (`reverse_slice`) and
uses slice indexing and slice assignment on lists.  The semantics below
follow CPython's `PySlice_AdjustIndices`. -/

/-- Python slice object; each field may be `None`. -/
structure PySlice where
  start : Option Int
  stop : Option Int
  step : Option Int
deriving DecidableEq, Repr

/-- Effective step of a slice: `org_slice.step or 1` in the source (Python
`or` also maps a zero step to 1, since 0 is falsy). -/
def PySlice.effStep (s : PySlice) : Int :=
  match s.step with
  | none => 1
  | some v => if v = 0 then 1 else v

/-- Source `Configuration.reverse_slice`. -/
def reverseSlice (org : PySlice) : PySlice :=
  let step : Int := -org.effStep
  if step < 0 then
    if org.stop = some 0 then
      ⟨org.start, some (-1), some step⟩
    else
      let stop : Option Int :=
        if org.start = none ∨ org.start = some 0 then none else org.start.map (· - 1)
      let start : Option Int := org.stop.map (· - 1)
      ⟨start, stop, some step⟩
  else
    if org.stop = some (-1) then
      ⟨org.start, some 0, some step⟩
    else
      let stop : Option Int :=
        if org.start = none ∨ org.start = some (-1) then none else org.start.map (· + 1)
      let start : Option Int := org.stop.map (· + 1)
      ⟨start, stop, some step⟩

/-- Normalised start index of a slice over a sequence of length `len`, per
CPython `PySlice_AdjustIndices` (negative values count from the end, then
clamp; the clamp sentinel differs by step sign). -/
def normStart (len : Nat) (st : Int) (start : Option Int) : Int :=
  match start with
  | none => if st < 0 then (len : Int) - 1 else 0
  | some v =>
    if v < 0 then
      (if v + len < 0 then (if st < 0 then -1 else 0) else v + len)
    else
      (if v ≥ len then (if st < 0 then (len : Int) - 1 else len) else v)

/-- Normalised stop index of a slice over a sequence of length `len`, per
CPython `PySlice_AdjustIndices`. -/
def normStop (len : Nat) (st : Int) (stop : Option Int) : Int :=
  match stop with
  | none => if st < 0 then -1 else len
  | some v =>
    if v < 0 then
      (if v + len < 0 then (if st < 0 then -1 else 0) else v + len)
    else
      (if v ≥ len then (if st < 0 then (len : Int) - 1 else len) else v)

/-- Number of indices selected by a slice with normalised bounds `a`, `b`
and step `st`. -/
def sliceCount (a b st : Int) : Nat :=
  if st > 0 then (b - a + st - 1).toNat / st.toNat
  else (a - b - st - 1).toNat / (-st).toNat

/-- The list of indices a slice selects from a sequence of length `len`,
in selection order. -/
def sliceIdx (len : Nat) (s : PySlice) : List Int :=
  (List.range (sliceCount (normStart len s.effStep s.start)
      (normStop len s.effStep s.stop) s.effStep)).map
    (fun i : Nat => normStart len s.effStep s.start + s.effStep * (i : Int))

/-- Python `xs[s]` for a list: the elements at the selected indices.  The
normalised indices are always in range, so the guard never fires. -/
def pyGetSlice (xs : List α) (s : PySlice) : List α :=
  (sliceIdx xs.length s).filterMap
    (fun i => if i < 0 then none else xs.get? i.toNat)

/-- Python `xs[s] = vals` for equal-length extended slice assignment:
pairwise element replacement at the selected indices. -/
def pySetSlice (xs : List α) (s : PySlice) (vals : List α) : List α :=
  ((sliceIdx xs.length s).zip vals).foldl
    (fun acc iv => if iv.1 < 0 then acc else acc.set iv.1.toNat iv.2) xs

/-! ## Configuration store -/

/-- The mutable configuration state, from `configuration.Configuration`.
The Python dicts `_tiles` and `_tile_types` (keyed by position, built in
generator order) are merged into one association list; `_bram` is an
association list as well; the comment is kept as its character stream. -/
structure Configuration where
  tiles : List (TilePosition × TileType × List (List Bool))
  bram : List (TilePosition × List (List Bool))
  comment : List Char
  freq_range : FreqRange
  warmboot : Bool
  nosleep : Bool
  extra_bits : List ExtraBit

/-- Blank state produced by `Configuration.clear`: one all-false matrix of
the kind-specific shape per generated position, one all-false 16 by 256
matrix per RAM_B position, and the documented scalar defaults. -/
def blankConfig (spec : DeviceSpec) : Configuration where
  tiles := (getTileTypes spec).map (fun pt =>
    (pt.1, pt.2, blankTileMatrix spec pt.2))
  bram := ((getTileTypes spec).filter (fun pt => pt.2 = TileType.ramB)).map
    (fun pt => (pt.1, List.replicate 16 (List.replicate 256 false)))
  comment := []
  freq_range := FreqRange.low
  warmboot := true
  nosleep := false
  extra_bits := []

/-- Source `Configuration.clear`: discards the previous state and rebuilds
the blank state from the bound device spec. -/
def Configuration.clear (spec : DeviceSpec) (_ : Configuration) : Configuration :=
  blankConfig spec

/-- Dictionary lookup `self._tiles[pos]` (with its tile type). -/
def Configuration.lookupTile (c : Configuration) (p : TilePosition) :
    Option (TileType × List (List Bool)) :=
  (c.tiles.find? (fun e => e.1 = p)).map (fun e => e.2)

/-- Dictionary lookup `self._bram[pos]`. -/
def Configuration.lookupBram (c : Configuration) (p : TilePosition) :
    Option (List (List Bool)) :=
  (c.bram.find? (fun e => e.1 = p)).map (fun e => e.2)

/-- Replace the matrix stored for one tile position. -/
def Configuration.setTile (c : Configuration) (p : TilePosition)
    (m : List (List Bool)) : Configuration :=
  { c with tiles := c.tiles.map (fun e => if e.1 = p then (e.1, e.2.1, m) else e) }

/-- Replace the matrix stored for one block-memory position. -/
def Configuration.setBram (c : Configuration) (p : TilePosition)
    (m : List (List Bool)) : Configuration :=
  { c with bram := c.bram.map (fun e => if e.1 = p then (e.1, m) else e) }

/-- Read one bit of a boolean matrix at (group, index); all uses are in
range (Python would raise IndexError out of range). -/
def mget (m : List (List Bool)) (g i : Nat) : Bool :=
  (m.getD g []).getD i false

/-- Write one bit of a boolean matrix at (group, index); all uses are in
range (Python would raise IndexError out of range; `List.set` out of range
drops the write, which a round-trip theorem would expose). -/
def mset (m : List (List Bool)) (g i : Nat) (v : Bool) : List (List Bool) :=
  m.set g ((m.getD g []).set i v)

/-- Source `Configuration.get_bit`. -/
def Configuration.getBit (c : Configuration) (x y g i : Nat) : Option Bool :=
  (c.lookupTile ⟨x, y⟩).map (fun e => mget e.2 g i)

/-- Source `Configuration.set_bit`. -/
def Configuration.setBit (c : Configuration) (x y g i : Nat) (v : Bool) :
    Option Configuration :=
  (c.lookupTile ⟨x, y⟩).map (fun e => c.setTile ⟨x, y⟩ (mset e.2 g i v))

/-! ## Block-memory value packing -/

/-- Starts that double slice reversal rewrites to None: a start of 0 on an
ascending slice, or -1 on a descending one (outside the empty-slice special
cases), comes back as None. -/
def startAnonymized (s : PySlice) : Option Int :=
  if (s.step = some 1 ∧ s.start = some 0 ∧ s.stop ≠ some 0) ∨
      (s.step = some (-1) ∧ s.start = some (-1) ∧ s.stop ≠ some (-1))
  then none else s.start

/-! ## Binary codec

The embedding of `read_bin` (parsing phase) and of the truncated
`write_bin` of the source.  Bytes are `Nat` values below 256; streams are
byte lists. -/

/-- Error outcomes of the binary reader: `eof` is Python's EOFError from
`get_bytes`, `malformed` is MalformedBitstreamError, and `crash` stands for
uncaught Python exceptions (e.g. TypeError when bank number or offset are
still None when data arrives). -/
inductive BinErr where
  | eof
  | malformed
  | crash
deriving DecidableEq, Repr

/-- One CRC-CCITT bit step (polynomial 0x1021), as in `binascii.crc_hqx`. -/
def crcBit (c : Nat) : Nat :=
  if c &&& 0x8000 ≠ 0 then ((c <<< 1) ^^^ 0x1021) &&& 0xFFFF
  else (c <<< 1) &&& 0xFFFF

/-- CRC-CCITT update by one byte, as in `binascii.crc_hqx`. -/
def crcByteStep (c b : Nat) : Nat :=
  crcBit (crcBit (crcBit (crcBit (crcBit (crcBit (crcBit (crcBit (c ^^^ (b <<< 8)))))))))

/-- Source `CRC.update`: feed a byte span through the running checksum. -/
def crcUpdate (c : Nat) (bytes : List Nat) : Nat :=
  bytes.foldl crcByteStep c

/-- NOSLEEP_MASK of the source. -/
def nosleepMask : Nat := 1

/-- WARMBOOT_MASK of the source. -/
def warmbootMask : Nat := 32

/-- UTF-8 encoding of one character (by code point). -/
def utf8Char (c : Nat) : List Nat :=
  if c < 0x80 then [c]
  else if c < 0x800 then [0xC0 ||| (c >>> 6), 0x80 ||| (c &&&0x3F)]
  else if c < 0x10000 then
    [0xE0 ||| (c >>> 12), 0x80 ||| ((c >>> 6) &&& 0x3F), 0x80 ||| (c &&& 0x3F)]
  else
    [0xF0 ||| (c >>> 18), 0x80 ||| ((c >>> 12) &&& 0x3F),
      0x80 ||| ((c >>> 6) &&& 0x3F), 0x80 ||| (c &&& 0x3F)]

/-- UTF-8 encoding of a character list. -/
def utf8Bytes (cs : List Char) : List Nat :=
  cs.flatMap (fun c => utf8Char c.toNat)

/-- Split a character list at newline characters, like `str.split("\n")`
(segments without the newline; one more segment than newlines). -/
def splitLines : List Char → List (List Char)
  | [] => [[]]
  | c :: rest =>
    let r := splitLines rest
    if c = Char.ofNat 10 then [] :: r
    else (c :: r.headD []) :: r.tail

/-- The warmboot/nosleep flag byte written by `BinOut.write_warmboot`. -/
def warmbootByte (warmboot nosleep : Bool) : Nat :=
  (if nosleep then nosleepMask else 0) ||| (if warmboot then warmbootMask else 0)

/-- Source `Configuration.write_bin`.  The implementation in the source is
truncated: after computing (and discarding) the CRAM and BRAM banks it
emits only the comment block, the preamble, the frequency-range command,
the CRC-reset command and the warmboot command; the trailing comments
"bank width / bank height / bank offset" are never implemented, so no bank
data, CRC-check or wakeup commands are ever written. -/
def writeBin (c : Configuration) : List Nat :=
  [0xFF, 0x00] ++
  (if c.comment = [] then []
   else (splitLines c.comment).flatMap (fun l => utf8Bytes l ++ [0x00])) ++
  [0x00, 0xFF] ++
  [0x7E, 0xAA, 0x99, 0x7E] ++
  [0x51, c.freq_range.val] ++
  [0x01, 0x05] ++
  [0x92, 0x00, warmbootByte c.warmboot c.nosleep]

/-- All-blank CRAM banks, from `_all_blank_cram_banks`. -/
def blankCramBanks (spec : DeviceSpec) : List (List (List Bool)) :=
  List.replicate 4 (List.replicate spec.cram_height (List.replicate spec.cram_width false))

/-- All-blank BRAM banks, from `_all_blank_bram_banks`. -/
def blankBramBanks (spec : DeviceSpec) : List (List (List Bool)) :=
  List.replicate 4 (List.replicate spec.bram_height (List.replicate spec.bram_width false))

/-- Mutable state of the `read_bin` command loop. -/
structure CmdState where
  cfgFreq : FreqRange
  cfgWarmboot : Bool
  cfgNosleep : Bool
  bankNr : Option Nat
  bankWidth : Option Nat
  bankHeight : Option Nat
  bankOffset : Option Nat
  crc : Nat
  cram : List (List (List Bool))
  bram : List (List (List Bool))

/-- A byte as 8 bits, MSB first, as in `data_to_xram`. -/
def byteToBitsMsb (b : Nat) : List Bool :=
  (List.range 8).map (fun i => ((b <<< i) &&& 0x80) ≠ 0)

/-- Replace the first `width` bits of one bank row (the slice assignment
`xram[...][y+offset][0:width] = bit_data`; every actual use has exactly
`width` bits, making the element-wise model exact). -/
def setRowBits (row : List Bool) (width : Nat) (bits : List Bool) : List Bool :=
  (((List.range width).zip bits).foldl (fun r iv => r.set iv.1 iv.2) row)

/-- Source `data_to_xram`: unpack the payload MSB-first, one bank row per
`y`, into rows `offset..offset+height-1` of bank `bankNr`. -/
def dataToXram (data : List Nat) (xram : List (List (List Bool)))
    (bankNr width height offset : Nat) : List (List (List Bool)) :=
  (List.range height).foldl (fun xr y =>
    let bitData := ((data.drop (y * width / 8)).take
      ((y + 1) * width / 8 - y * width / 8)).flatMap byteToBitsMsb
    let bank := xr.getD bankNr []
    let row := bank.getD (y + offset) []
    xr.set bankNr (bank.set (y + offset) (setRowBits row width bitData))) xram

/-- The command loop of `read_bin`: one control byte (high nibble opcode,
low nibble payload length), big-endian payload, then dispatch.  End of
input before a command byte ends parsing normally; `get_bytes` hitting the
end inside a payload, bank data or trailer is an EOFError.  The fuel
argument only bounds the number of iterations; every iteration consumes at
least the command byte, so the wrapper below supplies enough fuel for the
zero-fuel case never to be reached. -/
def cmdLoopFuel (st : CmdState) (s : List Nat) : Nat → Except BinErr CmdState
  | 0 => Except.error BinErr.eof
  | fuel + 1 =>
    match s with
    | [] => Except.ok st
    | cmd :: rest =>
      let plen := cmd &&& 0xF
      if rest.length < plen then Except.error BinErr.eof
      else
        let payloadBytes := rest.take plen
        let rest1 := rest.drop plen
        let st1 := { st with crc := crcUpdate (crcByteStep st.crc cmd) payloadBytes }
        let payload := payloadBytes.foldl (fun a v => (a <<< 8) ||| v) 0
        let opcode := cmd >>> 4
        if opcode = 0 then
          if payload = 1 ∨ payload = 3 then
            match st1.bankWidth, st1.bankHeight with
            | some w, some h =>
              let dataLen := w * h / 8
              if rest1.length < dataLen then Except.error BinErr.eof
              else
                let data := rest1.take dataLen
                let rest2 := rest1.drop dataLen
                let st2 := { st1 with crc := crcUpdate st1.crc data }
                match st2.bankNr, st2.bankOffset with
                | some nr, some off =>
                  let st3 :=
                    if payload = 1 then
                      { st2 with cram := dataToXram data st2.cram nr w h off }
                    else
                      { st2 with bram := dataToXram data st2.bram nr w h off }
                  if rest2.length < 2 then Except.error BinErr.eof
                  else
                    if rest2.take 2 = [0, 0] then
                      cmdLoopFuel { st3 with crc := crcUpdate st3.crc (rest2.take 2) }
                        (rest2.drop 2) fuel
                    else Except.error BinErr.malformed
                | _, _ => Except.error BinErr.crash
            | _, _ => Except.error BinErr.malformed
          else if payload = 5 then cmdLoopFuel { st1 with crc := 0xFFFF } rest1 fuel
          else if payload = 6 then Except.ok st1
          else Except.error BinErr.malformed
        else if opcode = 1 then cmdLoopFuel { st1 with bankNr := some payload } rest1 fuel
        else if opcode = 2 then
          if st1.crc ≠ 0 then Except.error BinErr.malformed
          else cmdLoopFuel st1 rest1 fuel
        else if opcode = 5 then
          match FreqRange.ofVal payload with
          | some f => cmdLoopFuel { st1 with cfgFreq := f } rest1 fuel
          | none => Except.error BinErr.malformed
        else if opcode = 6 then
          cmdLoopFuel { st1 with bankWidth := some (payload + 1) } rest1 fuel
        else if opcode = 7 then
          cmdLoopFuel { st1 with bankHeight := some payload } rest1 fuel
        else if opcode = 8 then
          cmdLoopFuel { st1 with bankOffset := some payload } rest1 fuel
        else if opcode = 9 then
          cmdLoopFuel { st1 with
            cfgNosleep := (payload &&& nosleepMask) ≠ 0,
            cfgWarmboot := (payload &&& warmbootMask) ≠ 0 } rest1 fuel
        else Except.error BinErr.malformed

/-- The command loop of `read_bin`, with sufficient fuel (one unit per
remaining byte plus one, while each iteration consumes at least one). -/
def cmdLoop (st : CmdState) (s : List Nat) : Except BinErr CmdState :=
  cmdLoopFuel st s (s.length + 1)

/-- The null-terminated comment reader of `read_bin`, including the
quirk-compatibility rule for terminators that do not follow a
null-terminated line. -/
def commentLoop (crc : Nat) (acc : List Nat) (prv cur : Nat) :
    List Nat → Except BinErr (List Nat × Nat × List Nat)
  | [] => Except.error BinErr.eof
  | b :: rest =>
    if cur ≠ 0 then commentLoop (crcByteStep crc b) (acc ++ [cur]) cur b rest
    else
      if b = 0xFF then
        if prv = 0 then Except.ok (acc, crcByteStep crc b, rest)
        else Except.ok (acc ++ [0x0A], crcByteStep crc b, rest)
      else commentLoop (crcByteStep crc b) (acc ++ [0x0A]) 0 b rest

/-- The preamble scan of `read_bin`: read bytes until the last four are
7E AA 99 7E. -/
def scanPreamble (crc : Nat) (l4 : List (Option Nat)) :
    List Nat → Except BinErr (Nat × List Nat)
  | [] =>
    if l4 = [some 0x7E, some 0xAA, some 0x99, some 0x7E] then Except.ok (crc, [])
    else Except.error BinErr.eof
  | b :: rest =>
    if l4 = [some 0x7E, some 0xAA, some 0x99, some 0x7E] then Except.ok (crc, b :: rest)
    else scanPreamble (crcByteStep crc b) (l4.drop 1 ++ [some b]) rest

/-- The parsing phase of `read_bin`, up to (but not including) the final
bank-to-tile mapping: header, comment, preamble scan, command loop.
Returns the raw comment bytes and the final command-loop state.  The
initial flag values come from the configuration being read into (read_bin
does not clear it). -/
def readBinParse (spec : DeviceSpec) (c0 : Configuration) (stream : List Nat) :
    Except BinErr (List Nat × CmdState) := do
  match stream with
  | b0 :: b1 :: rest =>
    if b0 = 0xFF ∧ b1 = 0x00 then
      let crc0 := crcUpdate 0xFFFF [b0, b1]
      match rest with
      | [] => Except.error BinErr.eof
      | c :: rest1 => do
        let (com, crc1, rest2) ← commentLoop (crcByteStep crc0 c) [] 0 c rest1
        let (crc2, rest3) ← scanPreamble crc1 [none, none, none, none] rest2
        let st0 : CmdState :=
          { cfgFreq := c0.freq_range, cfgWarmboot := c0.warmboot,
            cfgNosleep := c0.nosleep, bankNr := none, bankWidth := none,
            bankHeight := none, bankOffset := none, crc := crc2,
            cram := blankCramBanks spec, bram := blankBramBanks spec }
        let stFinal ← cmdLoop st0 rest3
        pure (com, stFinal)
    else Except.error BinErr.malformed
  | _ => Except.error BinErr.eof

/-- A concrete command-loop state with all bank parameters set, for
exercising the end-of-input boundaries of the command loop. -/
def eofProbeState : CmdState :=
  { cfgFreq := FreqRange.low, cfgWarmboot := true, cfgNosleep := false,
    bankNr := some 0, bankWidth := some 8, bankHeight := some 2,
    bankOffset := some 0, crc := 0,
    cram := blankCramBanks (spec8k []), bram := blankBramBanks (spec8k []) }

/-! ## Text (asc) codec

`read_asc` consumes a text file line by line (`get_line` wraps `readline`
and raises EOFError on the empty string); `write_asc` prints the entries
back.  The text stream is modelled as a `List Char`. -/

/-- Python `str` whitespace as used by `strip`, `lstrip` and `split`. -/
def isPySpace (c : Char) : Bool :=
  c = ' ' ∨ c = '\t' ∨ c = '\n' ∨ c = '\r' ∨ c = '\x0b' ∨ c = '\x0c'

/-- `file.readline()` on a non-empty stream: the first line including its
newline (or the whole rest if no newline follows), and the remainder. -/
def splitFirstLine : List Char → List Char × List Char
  | [] => ([], [])
  | c :: rest =>
    if c = '\n' then ([c], rest)
    else
      let p := splitFirstLine rest
      (c :: p.1, p.2)

/-- `str.lstrip()`. -/
def pyLStrip (s : List Char) : List Char := s.dropWhile isPySpace

/-- `str.rstrip()`. -/
def pyRStrip (s : List Char) : List Char := (s.reverse.dropWhile isPySpace).reverse

/-- `str.strip()`. -/
def pyStrip (s : List Char) : List Char := pyRStrip (pyLStrip s)

/-- Accumulator pass of `str.split()` (split on whitespace runs, dropping
empty fields); `acc` holds the current field reversed. -/
def pySplitAux : List Char → List Char → List (List Char)
  | [], acc => if acc = [] then [] else [acc.reverse]
  | c :: rest, acc =>
    if isPySpace c then
      if acc = [] then pySplitAux rest []
      else acc.reverse :: pySplitAux rest []
    else pySplitAux rest (c :: acc)

/-- `str.split()` with no arguments. -/
def pySplitWs (s : List Char) : List (List Char) := pySplitAux s []

/-- Decimal digit value of a character. -/
def digitVal (c : Char) : Option Nat :=
  if '0' ≤ c ∧ c ≤ '9' then some (c.toNat - 48) else none

/-- Fold decimal digits onto an accumulator; `none` on a non-digit. -/
def pdAux (a : Nat) : List Char → Option Nat
  | [] => some a
  | c :: rest =>
    match digitVal c with
    | some d => pdAux (10 * a + d) rest
    | none => none

/-- A non-empty all-decimal digit string as a number. -/
def parseDigits (s : List Char) : Option Nat :=
  match s with
  | [] => none
  | _ => pdAux 0 s

/-- Python `int(str)`: surrounding whitespace stripped, an optional sign,
then decimal digits (PEP 515 underscore grouping is not modelled; no input
produced by this program uses it). -/
def pyInt (s : List Char) : Option Int :=
  match pyStrip s with
  | '-' :: rest => (parseDigits rest).map (fun n => -(n : Int))
  | '+' :: rest => (parseDigits rest).map (fun n => (n : Int))
  | t => (parseDigits t).map (fun n => (n : Int))

/-- Python `int(c, 16)` on a single character. -/
def hexDigitVal (c : Char) : Option Nat :=
  if '0' ≤ c ∧ c ≤ '9' then some (c.toNat - 48)
  else if 'a' ≤ c ∧ c ≤ 'f' then some (c.toNat - 87)
  else if 'A' ≤ c ∧ c ≤ 'F' then some (c.toNat - 55)
  else none

/-- Digits of `n` prepended to `acc`; the fuel bounds the digit count and
`n + 1` always suffices. -/
def natToDigitsFuel : Nat → Nat → List Char → List Char
  | 0, _, acc => acc
  | fuel + 1, n, acc =>
    let d := Char.ofNat (n % 10 + 48)
    if n < 10 then d :: acc
    else natToDigitsFuel fuel (n / 10) (d :: acc)

/-- Decimal rendering of a natural number (`str(int)` for values ≥ 0). -/
def natToChars (n : Nat) : List Char := natToDigitsFuel (n + 1) n []

/-- `str(int)`, signs included. -/
def intToChars (i : Int) : List Char :=
  if i < 0 then '-' :: natToChars i.natAbs else natToChars i.toNat

/-- Lowercase hex digit, as `f"{val:x}"` renders one nibble. -/
def hexChar (v : Nat) : Char :=
  if v < 10 then Char.ofNat (48 + v) else Char.ofNat (87 + v)

/-- Failure conditions of `read_asc`: `ValueError`, an uncaught `EOFError`
from `get_line` inside an entry body, `KeyError` from an unknown tile or
block-memory position, `IndexError` from a missing argument or a short
line, and the `NameError` raised by the undefined name `part` in the
warmboot branch.  The Python code mutates the configuration in place, so a
raised error leaves a partial state behind; the model returns only the
error, which agrees with the source on the error kind and on every
successful parse. -/
inductive AscErr where
  | valueError
  | eof
  | keyError
  | indexError
  | nameError
deriving DecidableEq, Repr

/-- Does the text start with a period? -/
def startsWithDot : List Char → Bool
  | [] => false
  | c :: _ => c = '.'

/-- `parts[i]` followed by `int(...)`: a missing argument is an
IndexError, a non-numeric one a ValueError. -/
def getIntArg (parts : List (List Char)) (i : Nat) : Except AscErr Int :=
  match parts.get? i with
  | none => Except.error AscErr.indexError
  | some t =>
    match pyInt t with
    | none => Except.error AscErr.valueError
    | some v => Except.ok v

/-- A parsed (x, y) argument pair as a grid position; negative coordinates
match no dictionary key (the caller turns `none` into a KeyError). -/
def posOfInts (x y : Int) : Option TilePosition :=
  if 0 ≤ x ∧ 0 ≤ y then some ⟨x.toNat, y.toNat⟩ else none

/-- `ASC_ENTRY_TO_TILE_TYPE`. -/
def ascEntryToTileType (e : List Char) : Option TileType :=
  if e = "logic_tile".toList then some TileType.logic
  else if e = "io_tile".toList then some TileType.io
  else if e = "ramt_tile".toList then some TileType.ramT
  else if e = "ramb_tile".toList then some TileType.ramB
  else none

/-- `TILE_TYPE_TO_ASC_ENTRY`. -/
def tileTypeToAscEntry : TileType → List Char
  | TileType.logic => "logic_tile".toList
  | TileType.io => "io_tile".toList
  | TileType.ramT => "ramt_tile".toList
  | TileType.ramB => "ramb_tile".toList

/-- The tile-entry body loop `for row in range(16)`: each of `count`
iterations reads one line, strips it, and overwrites row `i` of `m` with
its first `len(m[i])` characters compared against `'1'` (a shorter line is
an IndexError, a missing line an uncaught EOFError). -/
def readTileRowsAux (m : List (List Bool)) (i : Nat) (count : Nat) (s : List Char) :
    Except AscErr (List (List Bool) × List Char) :=
  match count with
  | 0 => Except.ok (m, s)
  | count' + 1 =>
    match s with
    | [] => Except.error AscErr.eof
    | _ =>
      let p := splitFirstLine s
      let l := pyStrip p.1
      if h : i < m.length then
        let w := (m.get ⟨i, h⟩).length
        if l.length < w then Except.error AscErr.indexError
        else readTileRowsAux (m.set i ((l.take w).map (fun ch => ch = '1'))) (i + 1)
          count' p.2
      else Except.error AscErr.indexError

/-- The `ram_data` body loop: each of `count` iterations reads one line,
strips it, parses its first 64 characters as hex digits from position 63
down to 0, and overwrites bits 0..255 of row `i` of `m` with the digit
bits, least significant first (a line shorter than 64 is an IndexError, a
non-hex digit a ValueError; the digits are parsed before the writes are
replayed, which agrees with the source whenever row `i` holds at least 256
bits, as every reachable matrix does). -/
def readRamRowsAux (m : List (List Bool)) (i : Nat) (count : Nat) (s : List Char) :
    Except AscErr (List (List Bool) × List Char) :=
  match count with
  | 0 => Except.ok (m, s)
  | count' + 1 =>
    match s with
    | [] => Except.error AscErr.eof
    | _ =>
      let p := splitFirstLine s
      let l := pyStrip p.1
      if h : i < m.length then
        if l.length < 64 then Except.error AscErr.indexError
        else
          match (List.range 64).mapM (fun k => hexDigitVal (l.getD (63 - k) ' ')) with
          | none => Except.error AscErr.valueError
          | some digits =>
            let row := m.get ⟨i, h⟩
            if row.length < 256 then Except.error AscErr.indexError
            else
              let bits := digits.flatMap (fun d => (List.range 4).map (fun j => d.testBit j))
              readRamRowsAux (m.set i (bits ++ row.drop 256)) (i + 1) count' p.2
      else Except.error AscErr.indexError

/-- The FIND_ENTRY state of `read_asc` on one already-read line: strip it,
skip it when blank, reject it without a leading period, then dispatch on
the entry name.  Returns the comment-mode flag, the updated configuration
and the remaining stream. -/
def processEntry (spec : DeviceSpec) (cfg : Configuration) (line rest : List Char) :
    Except AscErr (Bool × Configuration × List Char) :=
  match pyStrip line with
  | [] => Except.ok (false, cfg, rest)
  | c :: l' =>
    if c ≠ '.' then Except.error AscErr.valueError
    else
      let parts := pySplitWs (c :: l')
      let entry := (parts.headD []).drop 1
      match ascEntryToTileType entry with
      | some _ => do
        let x ← getIntArg parts 1
        let y ← getIntArg parts 2
        match (posOfInts x y).bind (fun p => (cfg.lookupTile p).map (fun tm => (p, tm))) with
        | none => Except.error AscErr.keyError
        | some (p, _, m) => do
          let r ← readTileRowsAux m 0 16 rest
          Except.ok (false, cfg.setTile p r.1, r.2)
      | none =>
        if entry = "ram_data".toList then do
          let x ← getIntArg parts 1
          let y ← getIntArg parts 2
          match (posOfInts x y).bind (fun p => (cfg.lookupBram p).map (fun m => (p, m))) with
          | none => Except.error AscErr.keyError
          | some (p, m) => do
            let r ← readRamRowsAux m 0 16 rest
            Except.ok (false, cfg.setBram p r.1, r.2)
        else if entry = "extra_bit".toList then do
          let b ← getIntArg parts 1
          let x ← getIntArg parts 2
          let y ← getIntArg parts 3
          Except.ok (false, { cfg with extra_bits := cfg.extra_bits ++ [⟨b, x, y⟩] }, rest)
        else if entry = "comment".toList then Except.ok (true, cfg, rest)
        else if entry = "device".toList then
          match parts.get? 1 with
          | none => Except.error AscErr.indexError
          | some d =>
            if spec.asc_name ≠ d then Except.error AscErr.valueError
            else Except.ok (false, cfg, rest)
        else if entry = "warmboot".toList then Except.error AscErr.nameError
        else if entry = "sym".toList then Except.ok (false, cfg, rest)
        else Except.error AscErr.valueError

/-- The `read_asc` line loop.  Each iteration reads one line; in comment
mode (READ_TO_NEXT) a line not left-stripping to a period is appended raw
to the comment lines, every other line goes through FIND_ENTRY.  End of
input ends the loop in both reading states.  The fuel only bounds the
number of iterations; every iteration consumes at least one character, so
`s.length + 1` always suffices. -/
def readAscFuel (spec : DeviceSpec) :
    Nat → Bool → Configuration → List (List Char) → List Char →
    Except AscErr (Configuration × List (List Char))
  | 0, _, _, _, _ => Except.error AscErr.eof
  | fuel + 1, inComment, cfg, com, s =>
    match s with
    | [] => Except.ok (cfg, com)
    | _ =>
      let p := splitFirstLine s
      if inComment ∧ ¬startsWithDot (pyLStrip p.1) then
        readAscFuel spec fuel true cfg (com ++ [p.1]) p.2
      else
        match processEntry spec cfg p.1 p.2 with
        | Except.error e => Except.error e
        | Except.ok r => readAscFuel spec fuel r.1 r.2.1 com r.2.2

/-- Source `Configuration.read_asc`: clear, run the line loop, then join
the collected comment lines. -/
def Configuration.readAsc (spec : DeviceSpec) (c : Configuration) (s : List Char) :
    Except AscErr Configuration :=
  match readAscFuel spec (s.length + 1) false (c.clear spec) [] s with
  | Except.error e => Except.error e
  | Except.ok r => Except.ok { r.1 with comment := r.2.flatten }

/-- One tile row as `write_asc` prints it. -/
def boolRowChars (row : List Bool) : List Char :=
  row.map (fun b => if b then '1' else '0')

/-- One block-memory row as `write_asc` prints it: one hex digit per four
bits, least significant bit first within a digit, digits emitted from the
highest address group down. -/
def ramRowChars (row : List Bool) : List Char :=
  ((List.range (row.length / 4)).map (fun i =>
    hexChar ((cond (row.getD (4 * i + 3) false) 8 0) +
      (cond (row.getD (4 * i + 2) false) 4 0) +
      (cond (row.getD (4 * i + 1) false) 2 0) +
      (cond (row.getD (4 * i) false) 1 0)))).reverse

/-- Lexicographic order on grid positions, the order `sorted(self._tiles)`
uses on the `(x, y)` named tuples. -/
def posLe (a b : TilePosition) : Prop :=
  a.x < b.x ∨ (a.x = b.x ∧ a.y ≤ b.y)

instance : DecidableRel posLe := fun a b => by
  unfold posLe
  infer_instance

instance : IsTotal TilePosition posLe :=
  ⟨by intro a b; unfold posLe; omega⟩

instance : IsTrans TilePosition posLe :=
  ⟨by intro a b c; unfold posLe; omega⟩

/-- `sorted(...)` on the tile dictionary, modelled by insertion sort (the
keys are totally ordered, so every sort agrees with Python here). -/
def sortedTiles (c : Configuration) : List (TilePosition × TileType × List (List Bool)) :=
  c.tiles.insertionSort (fun a b => posLe a.1 b.1)

/-- `sorted(...)` on the block-memory dictionary. -/
def sortedBram (c : Configuration) : List (TilePosition × List (List Bool)) :=
  c.bram.insertionSort (fun a b => posLe a.1 b.1)

/-- Source `Configuration.write_asc`: optional comment block (newline
appended when the comment lacks one), device line, warmboot line only when
warmboot is off, every tile sorted by position, each non-zero block memory
sorted by position, then the extra bits. -/
def Configuration.writeAsc (spec : DeviceSpec) (c : Configuration) : List Char :=
  (if c.comment ≠ [] then
    ".comment\n".toList ++ c.comment ++
      (if c.comment.getLast? ≠ some '\n' then ['\n'] else [])
  else []) ++
  ".device ".toList ++ spec.asc_name ++ ['\n'] ++
  (if c.warmboot = false then ".warmboot disabled\n".toList else []) ++
  (sortedTiles c).flatMap (fun e =>
    ['.'] ++ tileTypeToAscEntry e.2.1 ++ [' '] ++ natToChars e.1.x ++ [' '] ++
      natToChars e.1.y ++ ['\n'] ++
    e.2.2.flatMap (fun row => boolRowChars row ++ ['\n'])) ++
  (sortedBram c).flatMap (fun e =>
    if e.2.any (fun r => r.any id) then
      ".ram_data ".toList ++ natToChars e.1.x ++ [' '] ++ natToChars e.1.y ++ ['\n'] ++
        e.2.flatMap (fun row => ramRowChars row ++ ['\n'])
    else []) ++
  c.extra_bits.flatMap (fun b =>
    ".extra_bit ".toList ++ intToChars b.bank ++ [' '] ++ intToChars b.x ++ [' '] ++
      intToChars b.y ++ ['\n'])

/-! ### Facts about slice reversal -/

theorem normStart_pos_nonneg (len : Nat) (o : Option Int) : 0 ≤ normStart len 1 o := by
  rcases o with _ | v <;> simp only [normStart] <;> split_ifs <;> omega

theorem normStart_neg_le (len : Nat) (o : Option Int) :
    normStart len (-1) o ≤ (len : Int) - 1 := by
  rcases o with _ | v <;> simp only [normStart] <;> split_ifs <;> omega

theorem normStop_pos_zero (len : Nat) : normStop len 1 (some 0) = 0 := by
  simp only [normStop]
  split_ifs <;> omega

theorem normStop_neg_neg_one (len : Nat) : normStop len (-1) (some (-1)) = (len : Int) - 1 := by
  simp only [normStop]
  split_ifs <;> omega

theorem normStart_neg_pred (len : Nat) (v : Int) (hv : v ≠ 0) :
    normStart len (-1) (some (v - 1)) = normStop len 1 (some v) - 1 := by
  simp only [normStart, normStop]
  split_ifs <;> omega

theorem normStop_neg_pred (len : Nat) (v : Int) (hv : v ≠ 0) :
    normStop len (-1) (some (v - 1)) = normStart len 1 (some v) - 1 := by
  simp only [normStart, normStop]
  split_ifs <;> omega

theorem normStart_pos_succ (len : Nat) (v : Int) (hv : v ≠ -1) :
    normStart len 1 (some (v + 1)) = normStop len (-1) (some v) + 1 := by
  simp only [normStart, normStop]
  split_ifs <;> omega

theorem normStop_pos_succ (len : Nat) (v : Int) (hv : v ≠ -1) :
    normStop len 1 (some (v + 1)) = normStart len (-1) (some v) + 1 := by
  simp only [normStart, normStop]
  split_ifs <;> omega

theorem normStart_neg_none (len : Nat) : normStart len (-1) none = (len : Int) - 1 := by
  simp only [normStart]
  norm_num

theorem normStop_neg_none (len : Nat) : normStop len (-1) none = -1 := by
  simp only [normStop]
  norm_num

theorem normStart_pos_none (len : Nat) : normStart len 1 none = 0 := by
  simp only [normStart]
  norm_num

theorem normStop_pos_none (len : Nat) : normStop len 1 none = (len : Int) := by
  simp only [normStop]
  norm_num

theorem normStart_pos_some_zero (len : Nat) : normStart len 1 (some 0) = 0 := by
  simp only [normStart]
  split_ifs <;> omega

theorem normStart_neg_some_neg_one (len : Nat) :
    normStart len (-1) (some (-1)) = (len : Int) - 1 := by
  simp only [normStart]
  split_ifs <;> omega

theorem sliceCount_one (a b : Int) : sliceCount a b 1 = (b - a).toNat := by
  unfold sliceCount
  norm_num

theorem sliceCount_neg_one (a b : Int) : sliceCount a b (-1) = (a - b).toNat := by
  unfold sliceCount
  norm_num

/-- Helper: a descending slice whose bounds are the shifted bounds of an
ascending slice selects the reversed index list. -/
theorem sliceIdx_desc_eq_reverse (len : Nat) (s1 s2 : PySlice)
    (h1 : s1.effStep = -1) (h2 : s2.effStep = 1)
    (ha : normStart len (-1) s1.start = normStop len 1 s2.stop - 1)
    (hb : normStop len (-1) s1.stop = normStart len 1 s2.start - 1) :
    sliceIdx len s1 = (sliceIdx len s2).reverse := by
  unfold sliceIdx
  rw [h1, h2, ha, hb, sliceCount_one, sliceCount_neg_one]
  set a := normStart len 1 s2.start with hadef
  set b := normStop len 1 s2.stop with hbdef
  have hcnt : (b - 1 - (a - 1)).toNat = (b - a).toNat := by omega
  rw [hcnt]
  apply List.ext_getElem
  · simp
  · intro i hi1 hi2
    simp only [List.getElem_map, List.getElem_range, List.getElem_reverse,
      List.length_map, List.length_range]
    simp only [List.length_map, List.length_range] at hi1
    omega

/-- Helper: an ascending slice whose bounds are the shifted bounds of a
descending slice selects the reversed index list. -/
theorem sliceIdx_asc_eq_reverse (len : Nat) (s1 s2 : PySlice)
    (h1 : s1.effStep = 1) (h2 : s2.effStep = -1)
    (ha : normStart len 1 s1.start = normStop len (-1) s2.stop + 1)
    (hb : normStop len 1 s1.stop = normStart len (-1) s2.start + 1) :
    sliceIdx len s1 = (sliceIdx len s2).reverse := by
  unfold sliceIdx
  rw [h1, h2, ha, hb, sliceCount_one, sliceCount_neg_one]
  set a := normStart len (-1) s2.start with hadef
  set b := normStop len (-1) s2.stop with hbdef
  have hcnt : (a + 1 - (b + 1)).toNat = (a - b).toNat := by omega
  rw [hcnt]
  apply List.ext_getElem
  · simp
  · intro i hi1 hi2
    simp only [List.getElem_map, List.getElem_range, List.getElem_reverse,
      List.length_map, List.length_range]
    simp only [List.length_map, List.length_range] at hi1
    omega

/-- Helper: a slice that selects zero indices produces the empty list. -/
theorem sliceIdx_eq_nil (len : Nat) (s : PySlice)
    (h : sliceCount (normStart len s.effStep s.start)
      (normStop len s.effStep s.stop) s.effStep = 0) :
    sliceIdx len s = [] := by
  unfold sliceIdx
  rw [h]
  simp

/-- Core reversal fact: the index list of the reversed slice is the reverse
of the index list of the original, for steps of absolute value one. -/
theorem sliceIdx_reverseSlice (len : Nat) (s : PySlice)
    (h : s.step = some 1 ∨ s.step = some (-1)) :
    sliceIdx len (reverseSlice s) = (sliceIdx len s).reverse := by
  obtain ⟨sa, sb, st⟩ := s
  rcases h with h | h <;> simp only at h <;> subst h
  · -- original step 1, reversed step -1
    have hstep : PySlice.effStep ⟨sa, sb, some 1⟩ = 1 := by
      unfold PySlice.effStep; norm_num
    by_cases hb0 : sb = some 0
    · subst hb0
      have hrev : reverseSlice ⟨sa, some 0, some 1⟩ = ⟨sa, some (-1), some (-1)⟩ := by
        unfold reverseSlice PySlice.effStep
        norm_num
      rw [hrev]
      have hstep2 : PySlice.effStep ⟨sa, some (-1), some (-1)⟩ = -1 := by
        unfold PySlice.effStep; norm_num
      have hl : sliceIdx len ⟨sa, some (-1), some (-1)⟩ = [] := by
        apply sliceIdx_eq_nil
        rw [hstep2]
        simp only
        rw [sliceCount_neg_one, normStop_neg_neg_one]
        have h2 := normStart_neg_le len sa
        omega
      have hr : sliceIdx len ⟨sa, some 0, some 1⟩ = [] := by
        apply sliceIdx_eq_nil
        rw [hstep]
        simp only
        rw [sliceCount_one, normStop_pos_zero]
        have h1 := normStart_pos_nonneg len sa
        omega
      rw [hl, hr]
      simp
    · -- main branch of reverse_slice
      have hrev : reverseSlice ⟨sa, sb, some 1⟩ =
          ⟨sb.map (· - 1),
           if sa = none ∨ sa = some 0 then none else sa.map (· - 1),
           some (-1)⟩ := by
        unfold reverseSlice PySlice.effStep
        norm_num [hb0]
      rw [hrev]
      refine sliceIdx_desc_eq_reverse len _ _ ?_ hstep ?_ ?_
      · unfold PySlice.effStep; norm_num
      · simp only
        rcases sb with _ | v
        · simp only [Option.map_none']
          rw [normStart_neg_none, normStop_pos_none]
        · simp only [Option.map_some']
          exact normStart_neg_pred len v (by simpa using hb0)
      · simp only
        by_cases hsa : sa = none ∨ sa = some 0
        · rw [if_pos hsa, normStop_neg_none]
          rcases hsa with hsa | hsa <;> subst hsa
          · rw [normStart_pos_none]; omega
          · rw [normStart_pos_some_zero]; omega
        · rw [if_neg hsa]
          rcases sa with _ | v
          · exact absurd (Or.inl rfl) hsa
          · simp only [Option.map_some']
            refine normStop_neg_pred len v ?_
            intro h0
            exact hsa (Or.inr (by rw [h0]))
  · -- original step -1, reversed step 1
    have hstep : PySlice.effStep ⟨sa, sb, some (-1)⟩ = -1 := by
      unfold PySlice.effStep; norm_num
    by_cases hb0 : sb = some (-1)
    · subst hb0
      have hrev : reverseSlice ⟨sa, some (-1), some (-1)⟩ = ⟨sa, some 0, some 1⟩ := by
        unfold reverseSlice PySlice.effStep
        norm_num
      rw [hrev]
      have hstep2 : PySlice.effStep ⟨sa, some 0, some 1⟩ = 1 := by
        unfold PySlice.effStep; norm_num
      have hl : sliceIdx len ⟨sa, some 0, some 1⟩ = [] := by
        apply sliceIdx_eq_nil
        rw [hstep2]
        simp only
        rw [sliceCount_one, normStop_pos_zero]
        have h1 := normStart_pos_nonneg len sa
        omega
      have hr : sliceIdx len ⟨sa, some (-1), some (-1)⟩ = [] := by
        apply sliceIdx_eq_nil
        rw [hstep]
        simp only
        rw [sliceCount_neg_one, normStop_neg_neg_one]
        have h2 := normStart_neg_le len sa
        omega
      rw [hl, hr]
      simp
    · have hrev : reverseSlice ⟨sa, sb, some (-1)⟩ =
          ⟨sb.map (· + 1),
           if sa = none ∨ sa = some (-1) then none else sa.map (· + 1),
           some 1⟩ := by
        unfold reverseSlice PySlice.effStep
        norm_num [hb0]
      rw [hrev]
      refine sliceIdx_asc_eq_reverse len _ _ ?_ hstep ?_ ?_
      · unfold PySlice.effStep; norm_num
      · simp only
        rcases sb with _ | v
        · simp only [Option.map_none']
          rw [normStart_pos_none, normStop_neg_none]
          omega
        · simp only [Option.map_some']
          exact normStart_pos_succ len v (by simpa using hb0)
      · simp only
        by_cases hsa : sa = none ∨ sa = some (-1)
        · rw [if_pos hsa, normStop_pos_none]
          rcases hsa with hsa | hsa <;> subst hsa
          · rw [normStart_neg_none]; omega
          · rw [normStart_neg_some_neg_one]; omega
        · rw [if_neg hsa]
          rcases sa with _ | v
          · exact absurd (Or.inl rfl) hsa
          · simp only [Option.map_some']
            refine normStop_pos_succ len v ?_
            intro h0
            exact hsa (Or.inr (by rw [h0]))

/-- The indexing half of the reversible-slice property: slicing with the
reversed slice yields the reversed selection. -/
theorem pyGetSlice_reverseSlice {α : Type} (xs : List α) (s : PySlice)
    (h : s.step = some 1 ∨ s.step = some (-1)) :
    pyGetSlice xs (reverseSlice s) = (pyGetSlice xs s).reverse := by
  unfold pyGetSlice
  rw [sliceIdx_reverseSlice xs.length s h, List.filterMap_reverse]

/-- Evaluation of `reverse_slice` on an ascending slice, main branch. -/
theorem reverseSlice_pos_eval (sa sb : Option Int) (hb : sb ≠ some 0) :
    reverseSlice ⟨sa, sb, some 1⟩ =
      ⟨sb.map (· - 1),
       if sa = none ∨ sa = some 0 then none else sa.map (· - 1), some (-1)⟩ := by
  unfold reverseSlice PySlice.effStep
  norm_num [hb]

/-- Evaluation of `reverse_slice` on an ascending slice with stop 0. -/
theorem reverseSlice_pos_special (sa : Option Int) :
    reverseSlice ⟨sa, some 0, some 1⟩ = ⟨sa, some (-1), some (-1)⟩ := by
  unfold reverseSlice PySlice.effStep
  norm_num

/-- Evaluation of `reverse_slice` on a descending slice, main branch. -/
theorem reverseSlice_neg_eval (sa sb : Option Int) (hb : sb ≠ some (-1)) :
    reverseSlice ⟨sa, sb, some (-1)⟩ =
      ⟨sb.map (· + 1),
       if sa = none ∨ sa = some (-1) then none else sa.map (· + 1), some 1⟩ := by
  unfold reverseSlice PySlice.effStep
  norm_num [hb]

/-- Evaluation of `reverse_slice` on a descending slice with stop -1. -/
theorem reverseSlice_neg_special (sa : Option Int) :
    reverseSlice ⟨sa, some (-1), some (-1)⟩ = ⟨sa, some 0, some 1⟩ := by
  unfold reverseSlice PySlice.effStep
  norm_num

/-! ### Block-memory packing facts -/

theorem find?_setBramList_ne (p q : TilePosition) (m : List (List Bool)) (hne : q ≠ p) :
    ∀ (l : List (TilePosition × List (List Bool))),
      (l.map (fun e => if e.1 = p then (e.1, m) else e)).find? (fun e => e.1 = q) =
        l.find? (fun e => e.1 = q)
  | [] => by simp
  | e :: t => by
    by_cases hq : e.1 = q
    · rw [List.map_cons]
      have hnp : ¬e.1 = p := by
        intro hp
        exact hne (by rw [← hq, hp])
      rw [if_neg hnp, List.find?_cons_of_pos _ (by simp [hq]),
        List.find?_cons_of_pos _ (by simp [hq])]
    · rw [List.map_cons]
      by_cases hp : e.1 = p
      · rw [if_pos hp, List.find?_cons_of_neg _ (by simp; rw [hp]; exact fun h => hne h.symm),
          List.find?_cons_of_neg _ (by simp [hq])]
        exact find?_setBramList_ne p q m hne t
      · rw [if_neg hp, List.find?_cons_of_neg _ (by simp [hq]),
          List.find?_cons_of_neg _ (by simp [hq])]
        exact find?_setBramList_ne p q m hne t

theorem find?_setTileList (p : TilePosition) (m : List (List Bool)) :
    ∀ (l : List (TilePosition × TileType × List (List Bool)))
      (ent : TilePosition × TileType × List (List Bool)),
      l.find? (fun e => e.1 = p) = some ent →
      (l.map (fun e => if e.1 = p then (e.1, e.2.1, m) else e)).find?
          (fun e => e.1 = p) = some (p, ent.2.1, m)
  | [], ent, h => by simp [List.find?] at h
  | e :: t, ent, h => by
    by_cases hp : e.1 = p
    · rw [List.find?_cons_of_pos _ (by simp [hp])] at h
      have he : e = ent := by injection h
      subst he
      rw [List.map_cons, if_pos hp, List.find?_cons_of_pos _ (by simp [hp]), hp]
    · rw [List.find?_cons_of_neg _ (by simp [hp])] at h
      rw [List.map_cons, if_neg hp, List.find?_cons_of_neg _ (by simp [hp])]
      exact find?_setTileList p m t ent h

theorem find?_setTileList_ne (p q : TilePosition) (m : List (List Bool)) (hne : q ≠ p) :
    ∀ (l : List (TilePosition × TileType × List (List Bool))),
      (l.map (fun e => if e.1 = p then (e.1, e.2.1, m) else e)).find?
          (fun e => e.1 = q) = l.find? (fun e => e.1 = q)
  | [] => by simp
  | e :: t => by
    by_cases hq : e.1 = q
    · rw [List.map_cons]
      have hnp : ¬e.1 = p := by
        intro hp
        exact hne (by rw [← hq, hp])
      rw [if_neg hnp, List.find?_cons_of_pos _ (by simp [hq]),
        List.find?_cons_of_pos _ (by simp [hq])]
    · rw [List.map_cons]
      by_cases hp : e.1 = p
      · rw [if_pos hp, List.find?_cons_of_neg _ (by simp; rw [hp]; exact fun h => hne h.symm),
          List.find?_cons_of_neg _ (by simp [hq])]
        exact find?_setTileList_ne p q m hne t
      · rw [if_neg hp, List.find?_cons_of_neg _ (by simp [hq]),
          List.find?_cons_of_neg _ (by simp [hq])]
        exact find?_setTileList_ne p q m hne t

theorem lookupBram_setBram_ne (c : Configuration) (p q : TilePosition)
    (m : List (List Bool)) (hne : q ≠ p) :
    (c.setBram p m).lookupBram q = c.lookupBram q := by
  unfold Configuration.lookupBram Configuration.setBram
  simp only
  rw [find?_setBramList_ne p q m hne c.bram]

theorem lookupTile_setTile (c : Configuration) (p : TilePosition)
    (m : List (List Bool)) (tt : TileType) (d : List (List Bool))
    (h : c.lookupTile p = some (tt, d)) :
    (c.setTile p m).lookupTile p = some (tt, m) := by
  unfold Configuration.lookupTile at h ⊢
  unfold Configuration.setTile
  simp only
  rcases hf : c.tiles.find? (fun e => e.1 = p) with _ | ent
  · rw [hf] at h; simp at h
  · rw [hf] at h
    simp only [Option.map_some', Option.some_inj] at h
    rw [find?_setTileList p m c.tiles ent hf]
    simp only [Option.map_some', Option.some_inj]
    rw [show ent.2.1 = tt from by rw [h]]

theorem lookupTile_setTile_ne (c : Configuration) (p q : TilePosition)
    (m : List (List Bool)) (hne : q ≠ p) :
    (c.setTile p m).lookupTile q = c.lookupTile q := by
  unfold Configuration.lookupTile Configuration.setTile
  simp only
  rw [find?_setTileList_ne p q m hne c.tiles]

/-- Double application of `reverse_slice` restores the slice, except that
an explicit start of 0 (ascending) or -1 (descending) comes back as None. -/
theorem reverseSlice_reverseSlice (s : PySlice)
    (h : s.step = some 1 ∨ s.step = some (-1)) :
    reverseSlice (reverseSlice s) = ⟨startAnonymized s, s.stop, s.step⟩ := by
  obtain ⟨sa, sb, st⟩ := s
  rcases h with h | h <;> simp only at h <;> subst h
  · by_cases hb : sb = some 0
    · subst hb
      rw [reverseSlice_pos_special, reverseSlice_neg_special]
      unfold startAnonymized
      norm_num
    · have hstop : (if sa = none ∨ sa = some 0 then none else sa.map (· - 1)) ≠
          some (-1) := by
        rcases sa with _ | a
        · simp
        · by_cases ha : a = 0
          · subst ha; simp
          · rw [if_neg (by simp [ha])]
            simp only [Option.map_some', Ne, Option.some_inj]
            omega
      rw [reverseSlice_pos_eval sa sb hb, reverseSlice_neg_eval _ _ hstop]
      have hstart : (Option.map (· + 1)
          (if sa = none ∨ sa = some 0 then none else sa.map (· - 1)))
          = startAnonymized ⟨sa, sb, some 1⟩ := by
        unfold startAnonymized
        simp only
        rcases sa with _ | a
        · simp
        · by_cases ha : a = 0
          · subst ha
            simp [hb]
          · rw [if_neg (by simp [ha]), if_neg (by simp [ha])]
            simp only [Option.map_some', Option.some_inj]
            omega
      have hstopc : (if sb.map (· - 1) = none ∨ sb.map (· - 1) = some (-1) then none
          else Option.map (· + 1) (sb.map (· - 1))) = sb := by
        rcases sb with _ | b
        · simp
        · have hbne : b ≠ 0 := by simpa using hb
          rw [if_neg ?side]
          case side =>
            intro hor
            rcases hor with hor | hor
            · exact Option.noConfusion hor
            · simp only [Option.map_some', Option.some_inj] at hor
              omega
          simp only [Option.map_some', Option.some_inj]
          omega
      simp only [PySlice.mk.injEq]
      exact ⟨hstart, hstopc, trivial⟩
  · by_cases hb : sb = some (-1)
    · subst hb
      rw [reverseSlice_neg_special, reverseSlice_pos_special]
      unfold startAnonymized
      norm_num
    · have hstop : (if sa = none ∨ sa = some (-1) then none else sa.map (· + 1)) ≠
          some 0 := by
        rcases sa with _ | a
        · simp
        · by_cases ha : a = -1
          · subst ha; simp
          · rw [if_neg (by simp [ha])]
            simp only [Option.map_some', Ne, Option.some_inj]
            omega
      rw [reverseSlice_neg_eval sa sb hb, reverseSlice_pos_eval _ _ hstop]
      have hstart : (Option.map (· - 1)
          (if sa = none ∨ sa = some (-1) then none else sa.map (· + 1)))
          = startAnonymized ⟨sa, sb, some (-1)⟩ := by
        unfold startAnonymized
        simp only
        rcases sa with _ | a
        · simp
        · by_cases ha : a = -1
          · subst ha
            simp [hb]
          · rw [if_neg (by simp [ha]), if_neg (by simp [ha])]
            simp only [Option.map_some', Option.some_inj]
            omega
      have hstopc : (if sb.map (· + 1) = none ∨ sb.map (· + 1) = some 0 then none
          else Option.map (· - 1) (sb.map (· + 1))) = sb := by
        rcases sb with _ | b
        · simp
        · have hbne : b ≠ -1 := by simpa using hb
          rw [if_neg ?side2]
          case side2 =>
            intro hor
            rcases hor with hor | hor
            · exact Option.noConfusion hor
            · simp only [Option.map_some', Option.some_inj] at hor
              omega
          simp only [Option.map_some', Option.some_inj]
          omega
      simp only [PySlice.mk.injEq]
      exact ⟨hstart, hstopc, trivial⟩

/-- C6 (amended): for slices with explicit step 1 or -1, indexing any
sequence with the reversed slice yields the exact reverse of indexing with
the original slice, and applying `reverse_slice` twice returns the original
slice except that an explicit start of 0 (step 1) or -1 (step -1) comes
back as the equivalent None start. -/
theorem reverse_slice_involution {α : Type} (xs : List α) (s : PySlice)
    (h : s.step = some 1 ∨ s.step = some (-1)) :
    pyGetSlice xs (reverseSlice s) = (pyGetSlice xs s).reverse ∧
    reverseSlice (reverseSlice s) = ⟨startAnonymized s, s.stop, s.step⟩ :=
  ⟨pyGetSlice_reverseSlice xs s h, reverseSlice_reverseSlice s h⟩

/-- C6 counterexample: double application of `reverse_slice` does not
return the original slice object for start 0: slice(0, 2, 1) comes back as
slice(None, 2, 1). -/
theorem reverse_slice_involution_fails :
    reverseSlice (reverseSlice ⟨some 0, some 2, some 1⟩) ≠ ⟨some 0, some 2, some 1⟩ ∧
    reverseSlice (reverseSlice ⟨some 0, some 2, some 1⟩) = ⟨none, some 2, some 1⟩ := by
  constructor
  · decide
  · decide

/-- Witness for the amended C6 theorem on a four-element list and the slice
slice(1, 3, 1). -/
theorem reverse_slice_involution_witness :
    pyGetSlice [10, 20, 30, 40] (reverseSlice ⟨some 1, some 3, some 1⟩) =
      (pyGetSlice [10, 20, 30, 40] ⟨some 1, some 3, some 1⟩).reverse ∧
    reverseSlice (reverseSlice ⟨some 1, some 3, some 1⟩) =
      ⟨startAnonymized ⟨some 1, some 3, some 1⟩, some 3, some 1⟩ :=
  reverse_slice_involution [10, 20, 30, 40] ⟨some 1, some 3, some 1⟩ (Or.inl rfl)

/-! ### Tile enumeration facts -/

/-! ### Tile enumeration facts -/

theorem flatMap_pairs_length {α : Type} (f g : Nat → α) (n : Nat) :
    ((List.range n).flatMap (fun k => [f k, g k])).length = 2 * n := by
  induction n with
  | zero => rfl
  | succ m ih =>
    rw [List.range_succ, List.flatMap_append, List.length_append, ih]
    simp [Nat.mul_succ]

theorem flatMap_pairs_get?_left {α : Type} (f g : Nat → α) (n : Nat) :
    ∀ i, i < n →
      ((List.range n).flatMap (fun k => [f k, g k])).get? (2 * i) = some (f i) := by
  induction n with
  | zero => intro i h; omega
  | succ m ih =>
    intro i hi
    rw [List.range_succ, List.flatMap_append]
    by_cases him : i < m
    · rw [List.get?_append (by rw [flatMap_pairs_length]; omega)]
      exact ih i him
    · have hieq : i = m := by omega
      subst hieq
      rw [List.get?_append_right (by rw [flatMap_pairs_length])]
      rw [flatMap_pairs_length]
      have h0 : 2 * i - 2 * i = 0 := by omega
      rw [h0]
      rfl

theorem flatMap_pairs_get?_right {α : Type} (f g : Nat → α) (n : Nat) :
    ∀ i, i < n →
      ((List.range n).flatMap (fun k => [f k, g k])).get? (2 * i + 1) = some (g i) := by
  induction n with
  | zero => intro i h; omega
  | succ m ih =>
    intro i hi
    rw [List.range_succ, List.flatMap_append]
    by_cases him : i < m
    · rw [List.get?_append (by rw [flatMap_pairs_length]; omega)]
      exact ih i him
    · have hieq : i = m := by omega
      subst hieq
      rw [List.get?_append_right (by rw [flatMap_pairs_length]; omega)]
      rw [flatMap_pairs_length]
      have h0 : 2 * i + 1 - 2 * i = 1 := by omega
      rw [h0]
      rfl

theorem flatMap_uniform_length {α : Type} (F : Nat → List α) (L : Nat)
    (hL : ∀ k, (F k).length = L) (n : Nat) :
    ((List.range n).flatMap F).length = n * L := by
  induction n with
  | zero => simp
  | succ m ih =>
    rw [List.range_succ, List.flatMap_append, List.length_append, ih]
    simp [hL, Nat.succ_mul]

theorem flatMap_uniform_get? {α : Type} (F : Nat → List α) (L : Nat)
    (hL : ∀ k, (F k).length = L) (n : Nat) :
    ∀ i j, i < n → j < L →
      ((List.range n).flatMap F).get? (L * i + j) = (F i).get? j := by
  induction n with
  | zero => intro i j h _; omega
  | succ m ih =>
    intro i j hi hj
    rw [List.range_succ, List.flatMap_append]
    by_cases him : i < m
    · rw [List.get?_append (by rw [flatMap_uniform_length F L hL]; nlinarith)]
      exact ih i j him hj
    · have hieq : i = m := by omega
      subst hieq
      rw [List.get?_append_right (by rw [flatMap_uniform_length F L hL]; nlinarith)]
      rw [flatMap_uniform_length F L hL]
      have h0 : L * i + j - i * L = j := by
        have : L * i = i * L := by ring
        omega
      rw [h0]
      simp

theorem nodup_flatMap_pairs {α : Type} (f g : Nat → α) (n : Nat) (K : α → Nat)
    (hKf : ∀ k, K (f k) = k) (hKg : ∀ k, K (g k) = k) (hfg : ∀ k, f k ≠ g k) :
    ((List.range n).flatMap (fun k => [f k, g k])).Nodup := by
  rw [List.nodup_flatMap]
  constructor
  · intro k _
    simp [hfg k]
  · have hp := List.pairwise_lt_range n
    refine hp.imp ?_
    intro a b hab
    intro x hxa hxb
    simp only [List.mem_cons, List.not_mem_nil, or_false] at hxa hxb
    have hKx1 : K x = a := by
      rcases hxa with rfl | rfl
      · exact hKf a
      · exact hKg a
    have hKx2 : K x = b := by
      rcases hxb with rfl | rfl
      · exact hKf b
      · exact hKg b
    omega

theorem nodup_flatMap_uniform {α : Type} (F : Nat → List α) (n : Nat) (K : α → Nat)
    (hnd : ∀ k, k < n → (F k).Nodup) (hK : ∀ k x, k < n → x ∈ F k → K x = k) :
    ((List.range n).flatMap F).Nodup := by
  rw [List.nodup_flatMap]
  constructor
  · intro k hk
    exact hnd k (List.mem_range.mp hk)
  · have hp := List.pairwise_lt_range n
    rw [List.pairwise_iff_getElem] at hp ⊢
    intro a b ha hb hab
    simp only [List.length_range] at ha hb
    have h1 := hp a b (by simpa using ha) (by simpa using hb) hab
    simp only [List.getElem_range] at h1 ⊢
    intro x hxa hxb
    have hKx1 : K x = a := hK a x (by omega) hxa
    have hKx2 : K x = b := hK b x (by omega) hxb
    omega

theorem getTileTypes_8k (eb : List ExtraBit) :
    getTileTypes (spec8k eb) =
      ((List.range 32).flatMap (fun i =>
        [((⟨0, 1 + i⟩ : TilePosition), TileType.io), (⟨33, 1 + i⟩, TileType.io)])) ++
      ((List.range 32).flatMap (fun i =>
        [((⟨1 + i, 0⟩ : TilePosition), TileType.io), (⟨1 + i, 33⟩, TileType.io)])) ++
      ((List.range 32).flatMap (fun i =>
        (List.range 32).map (fun j =>
          ((⟨1 + i, 1 + j⟩ : TilePosition),
            interiorTileType (spec8k []) (1 + i) (1 + j))))) := rfl

theorem keys_8k (eb : List ExtraBit) :
    (getTileTypes (spec8k eb)).map Prod.fst =
      ((List.range 32).flatMap (fun i => [(⟨0, 1 + i⟩ : TilePosition), ⟨33, 1 + i⟩])) ++
      ((List.range 32).flatMap (fun i => [(⟨1 + i, 0⟩ : TilePosition), ⟨1 + i, 33⟩])) ++
      ((List.range 32).flatMap (fun i =>
        (List.range 32).map (fun j => (⟨1 + i, 1 + j⟩ : TilePosition)))) := by
  rw [getTileTypes_8k eb]
  simp only [List.map_append, List.map_flatMap, List.map_cons, List.map_nil, List.map_map]
  rfl

theorem classify8k_border (x y : Nat) (h : x = 0 ∨ x = 33 ∨ y = 0 ∨ y = 33) :
    classify8k ⟨x, y⟩ = TileType.io := by
  simp only [classify8k]
  rw [if_pos h]

theorem classify8k_interior (x y : Nat) (h : ¬(x = 0 ∨ x = 33 ∨ y = 0 ∨ y = 33)) :
    classify8k ⟨x, y⟩ = interiorTileType (spec8k []) x y := by
  simp only [classify8k]
  rw [if_neg h]

theorem nodup_positions_8k (eb : List ExtraBit) :
    ((getTileTypes (spec8k eb)).map Prod.fst).Nodup := by
  rw [keys_8k eb]
  rw [List.nodup_append, List.nodup_append]
  refine ⟨⟨?_, ?_, ?_⟩, ?_, ?_⟩
  · exact nodup_flatMap_pairs _ _ 32 (fun p => p.y - 1)
      (fun k => by simp) (fun k => by simp) (fun k => by simp)
  · exact nodup_flatMap_pairs _ _ 32 (fun p => p.x - 1)
      (fun k => by simp) (fun k => by simp) (fun k => by simp)
  · -- left and right border columns are disjoint from bottom and top rows
    intro p hp1 hp2
    simp only [List.mem_flatMap, List.mem_range, List.mem_cons, List.not_mem_nil,
      or_false] at hp1 hp2
    obtain ⟨k, hk, hpk⟩ := hp1
    obtain ⟨l, hl, hpl⟩ := hp2
    rcases hpk with rfl | rfl <;> rcases hpl with hpl | hpl <;>
      simp only [TilePosition.mk.injEq] at hpl <;> omega
  · refine nodup_flatMap_uniform _ 32 (fun p => p.x - 1) (fun k _ => ?_) ?_
    · refine List.Nodup.map ?_ (List.nodup_range _)
      intro a b hab
      simp only [TilePosition.mk.injEq] at hab
      omega
    · intro k p hk hp
      simp only [List.mem_map, List.mem_range] at hp
      obtain ⟨j, hj, rfl⟩ := hp
      simp
  · -- the border parts are disjoint from the interior part
    intro p hp1 hp2
    simp only [List.mem_append, List.mem_flatMap, List.mem_range, List.mem_cons,
      List.not_mem_nil, or_false, List.mem_map] at hp1 hp2
    obtain ⟨l, hl, j, hj, rfl⟩ := hp2
    rcases hp1 with ⟨k, hk, hpk⟩ | ⟨k, hk, hpk⟩ <;>
      rcases hpk with hpk | hpk <;>
      simp only [TilePosition.mk.injEq] at hpk <;> omega

theorem mem_getTileTypes_8k (eb : List ExtraBit) (p : TilePosition) (t : TileType) :
    (p, t) ∈ getTileTypes (spec8k eb) ↔ validPos8k p ∧ t = classify8k p := by
  obtain ⟨x, y⟩ := p
  rw [getTileTypes_8k eb]
  simp only [List.mem_append, List.mem_flatMap, List.mem_range, List.mem_cons,
    List.not_mem_nil, or_false, List.mem_map, Prod.mk.injEq, TilePosition.mk.injEq]
  constructor
  · rintro ((⟨k, hk, (⟨⟨hx, hy⟩, ht⟩ | ⟨⟨hx, hy⟩, ht⟩)⟩ |
        ⟨k, hk, (⟨⟨hx, hy⟩, ht⟩ | ⟨⟨hx, hy⟩, ht⟩)⟩) |
        ⟨k, hk, j, hj, ⟨hx, hy⟩, ht⟩) <;> subst hx <;> subst hy <;> subst ht
    · exact ⟨by simp [validPos8k] <;> omega, (classify8k_border _ _ (by omega)).symm⟩
    · exact ⟨by simp [validPos8k] <;> omega, (classify8k_border _ _ (by omega)).symm⟩
    · exact ⟨by simp [validPos8k] <;> omega, (classify8k_border _ _ (by omega)).symm⟩
    · exact ⟨by simp [validPos8k] <;> omega, (classify8k_border _ _ (by omega)).symm⟩
    · exact ⟨by simp [validPos8k] <;> omega,
        (classify8k_interior _ _ (by omega)).symm⟩
  · rintro ⟨hval, ht⟩
    simp only [validPos8k] at hval
    rcases hval with ⟨hx, hy1, hy2⟩ | ⟨hy, hx1, hx2⟩ | ⟨hx1, hx2, hy1, hy2⟩
    · rw [classify8k_border x y (by omega)] at ht
      rcases hx with rfl | rfl
      · exact Or.inl (Or.inl ⟨y - 1, by omega, Or.inl ⟨⟨rfl, by omega⟩, ht⟩⟩)
      · exact Or.inl (Or.inl ⟨y - 1, by omega, Or.inr ⟨⟨rfl, by omega⟩, ht⟩⟩)
    · rw [classify8k_border x y (by omega)] at ht
      rcases hy with rfl | rfl
      · exact Or.inl (Or.inr ⟨x - 1, by omega, Or.inl ⟨⟨by omega, rfl⟩, ht⟩⟩)
      · exact Or.inl (Or.inr ⟨x - 1, by omega, Or.inr ⟨⟨by omega, rfl⟩, ht⟩⟩)
    · rw [classify8k_interior x y (by omega)] at ht
      refine Or.inr ⟨x - 1, by omega, y - 1, by omega, ⟨by omega, by omega⟩, ?_⟩
      rw [show 1 + (x - 1) = x by omega, show 1 + (y - 1) = y by omega]
      exact ht.symm

theorem getTileTypes_8k_order (eb : List ExtraBit) :
    (∀ i, i < 32 →
      (getTileTypes (spec8k eb)).get? (2 * i) = some (⟨0, 1 + i⟩, TileType.io) ∧
      (getTileTypes (spec8k eb)).get? (2 * i + 1) = some (⟨33, 1 + i⟩, TileType.io) ∧
      (getTileTypes (spec8k eb)).get? (64 + (2 * i)) = some (⟨1 + i, 0⟩, TileType.io) ∧
      (getTileTypes (spec8k eb)).get? (64 + (2 * i + 1)) =
        some (⟨1 + i, 33⟩, TileType.io)) ∧
    (∀ i j, i < 32 → j < 32 →
      (getTileTypes (spec8k eb)).get? (128 + (32 * i + j)) =
        some (⟨1 + i, 1 + j⟩, interiorTileType (spec8k []) (1 + i) (1 + j))) := by
  rw [getTileTypes_8k eb]
  have hlenA : ((List.range 32).flatMap (fun i =>
      [((⟨0, 1 + i⟩ : TilePosition), TileType.io), (⟨33, 1 + i⟩, TileType.io)])).length =
      64 := by rw [flatMap_pairs_length]
  have hlenB : ((List.range 32).flatMap (fun i =>
      [((⟨1 + i, 0⟩ : TilePosition), TileType.io), (⟨1 + i, 33⟩, TileType.io)])).length =
      64 := by rw [flatMap_pairs_length]
  constructor
  · intro i hi
    refine ⟨?_, ?_, ?_, ?_⟩
    · rw [List.get?_append (by rw [List.length_append, hlenA, hlenB]; omega)]
      rw [List.get?_append (by rw [hlenA]; omega)]
      exact flatMap_pairs_get?_left _ _ 32 i hi
    · rw [List.get?_append (by rw [List.length_append, hlenA, hlenB]; omega)]
      rw [List.get?_append (by rw [hlenA]; omega)]
      exact flatMap_pairs_get?_right _ _ 32 i hi
    · rw [List.get?_append (by rw [List.length_append, hlenA, hlenB]; omega)]
      rw [List.get?_append_right (by rw [hlenA]; omega)]
      rw [hlenA]
      rw [show 64 + 2 * i - 64 = 2 * i by omega]
      exact flatMap_pairs_get?_left _ _ 32 i hi
    · rw [List.get?_append (by rw [List.length_append, hlenA, hlenB]; omega)]
      rw [List.get?_append_right (by rw [hlenA]; omega)]
      rw [hlenA]
      rw [show 64 + (2 * i + 1) - 64 = 2 * i + 1 by omega]
      exact flatMap_pairs_get?_right _ _ 32 i hi
  · intro i j hi hj
    rw [List.get?_append_right (by rw [List.length_append, hlenA, hlenB]; omega)]
    rw [List.length_append, hlenA, hlenB]
    rw [show 128 + (32 * i + j) - (64 + 64) = 32 * i + j by omega]
    rw [flatMap_uniform_get? _ 32 (fun k => by simp) 32 i j hi hj]
    rw [List.get?_map]
    rw [List.get?_eq_get (by simpa using hj)]
    simp

/-- C8 (amended): the 8k tile-position generator yields every valid
(position, kind) pair exactly once, with the border positions classified as
I/O, block-memory column interiors alternating by row parity and logic
elsewhere, but in this order: left and right border columns interleaved by
ascending y, then bottom and top border rows interleaved by ascending x,
then the interior column by column (x as the outer loop). -/
theorem tile_position_generator_order (eb : List ExtraBit) :
    ((getTileTypes (spec8k eb)).map Prod.fst).Nodup ∧
    (∀ p t, (p, t) ∈ getTileTypes (spec8k eb) ↔ validPos8k p ∧ t = classify8k p) ∧
    (∀ i, i < 32 →
      (getTileTypes (spec8k eb)).get? (2 * i) = some (⟨0, 1 + i⟩, TileType.io) ∧
      (getTileTypes (spec8k eb)).get? (2 * i + 1) = some (⟨33, 1 + i⟩, TileType.io) ∧
      (getTileTypes (spec8k eb)).get? (64 + (2 * i)) = some (⟨1 + i, 0⟩, TileType.io) ∧
      (getTileTypes (spec8k eb)).get? (64 + (2 * i + 1)) =
        some (⟨1 + i, 33⟩, TileType.io)) ∧
    (∀ i j, i < 32 → j < 32 →
      (getTileTypes (spec8k eb)).get? (128 + (32 * i + j)) =
        some (⟨1 + i, 1 + j⟩, interiorTileType (spec8k []) (1 + i) (1 + j))) :=
  ⟨nodup_positions_8k eb, mem_getTileTypes_8k eb,
    (getTileTypes_8k_order eb).1, (getTileTypes_8k_order eb).2⟩

/-- C8 counterexample: the generator starts with the left border column
position (0, 1), not the bottom row position (1, 0) that the claimed
bottom/top/left/right order would put first; the enumeration in the
claimed order is a different list. -/
theorem tile_position_order_differs :
    (getTileTypes (spec8k [])).get? 0 = some (⟨0, 1⟩, TileType.io) ∧
    (claimedTileTypes (spec8k [])).get? 0 = some (⟨1, 0⟩, TileType.io) ∧
    getTileTypes (spec8k []) ≠ claimedTileTypes (spec8k []) := by
  refine ⟨rfl, rfl, fun h => ?_⟩
  have h0 : (getTileTypes (spec8k [])).get? 0 = (claimedTileTypes (spec8k [])).get? 0 := by
    rw [h]
  rw [show (getTileTypes (spec8k [])).get? 0 = some (⟨0, 1⟩, TileType.io) from rfl,
    show (claimedTileTypes (spec8k [])).get? 0 = some (⟨1, 0⟩, TileType.io) from rfl] at h0
  simp only [Option.some_inj, Prod.mk.injEq, TilePosition.mk.injEq] at h0
  omega

/-! ### Blank configuration facts -/

theorem find?_map_build {γ : Type} (F : TilePosition × TileType → γ)
    (p : TilePosition) (t : TileType) :
    ∀ (l : List (TilePosition × TileType)), (l.map Prod.fst).Nodup → (p, t) ∈ l →
      (l.map (fun pt => (pt.1, F pt))).find? (fun e => e.1 = p) = some (p, F (p, t))
  | [], _, hm => by simp at hm
  | e :: tl, hnd, hm => by
    rw [List.map_cons, List.nodup_cons] at hnd
    by_cases hp : e.1 = p
    · rw [List.map_cons, List.find?_cons_of_pos _ (by simp [hp])]
      rcases List.mem_cons.mp hm with he | htl
      · rw [← he]
      · exfalso
        refine hnd.1 ?_
        rw [hp]
        exact List.mem_map.mpr ⟨(p, t), htl, rfl⟩
    · rw [List.map_cons, List.find?_cons_of_neg _ (by simp [hp])]
      refine find?_map_build F p t tl hnd.2 ?_
      rcases List.mem_cons.mp hm with he | htl
      · exact absurd (congrArg Prod.fst he.symm) hp
      · exact htl

theorem lookupTile_blank (spec : DeviceSpec) (p : TilePosition) (t : TileType)
    (hnd : ((getTileTypes spec).map Prod.fst).Nodup)
    (hmem : (p, t) ∈ getTileTypes spec) :
    (blankConfig spec).lookupTile p = some (t, blankTileMatrix spec t) := by
  unfold Configuration.lookupTile blankConfig
  simp only
  rw [find?_map_build (fun pt => (pt.2, blankTileMatrix spec pt.2)) p t
    (getTileTypes spec) hnd hmem]
  rfl

theorem lookupBram_blank (spec : DeviceSpec) (p : TilePosition)
    (hnd : ((getTileTypes spec).map Prod.fst).Nodup)
    (hmem : (p, TileType.ramB) ∈ getTileTypes spec) :
    (blankConfig spec).lookupBram p =
      some (List.replicate 16 (List.replicate 256 false)) := by
  unfold Configuration.lookupBram blankConfig
  simp only
  have hnd2 : (((getTileTypes spec).filter (fun pt => pt.2 = TileType.ramB)).map
      Prod.fst).Nodup :=
    hnd.sublist ((List.filter_sublist _).map Prod.fst)
  have hmem2 : (p, TileType.ramB) ∈
      (getTileTypes spec).filter (fun pt => pt.2 = TileType.ramB) :=
    List.mem_filter.mpr ⟨hmem, by simp⟩
  rw [find?_map_build (fun _ => List.replicate 16 (List.replicate 256 false)) p
    TileType.ramB _ hnd2 hmem2]
  rfl

theorem mget_replicate (m w g i : Nat) :
    mget (List.replicate m (List.replicate w false)) g i = false := by
  unfold mget
  rw [List.getD_eq_getElem?_getD (List.replicate m (List.replicate w false))]
  rw [List.getElem?_replicate]
  by_cases h : g < m
  · rw [if_pos h]
    simp only [Option.getD_some]
    rw [List.getD_eq_getElem?_getD, List.getElem?_replicate]
    by_cases h2 : i < w
    · rw [if_pos h2]
      rfl
    · rw [if_neg h2]
      rfl
  · rw [if_neg h]
    rfl

/-- C9: after construction or `clear()` the configuration is blank with
the documented defaults -- all tile and block-memory bits false, empty
comment, no extra bits, frequency range LOW, warmboot on, nosleep off --
with one matrix of the kind-specific shape per generated position and one
16 by 256 matrix per RAM_B position; `clear()` rebuilds exactly this state
from any state. -/
theorem clear_blank_state (spec : DeviceSpec) (c : Configuration)
    (hnd : ((getTileTypes spec).map Prod.fst).Nodup) :
    Configuration.clear spec c = blankConfig spec ∧
    (blankConfig spec).comment = [] ∧
    (blankConfig spec).extra_bits = [] ∧
    (blankConfig spec).freq_range = FreqRange.low ∧
    (blankConfig spec).warmboot = true ∧
    (blankConfig spec).nosleep = false ∧
    (∀ p t, (p, t) ∈ getTileTypes spec →
      (blankConfig spec).lookupTile p = some (t, blankTileMatrix spec t) ∧
      (blankTileMatrix spec t).length = spec.tile_height ∧
      (∀ r ∈ blankTileMatrix spec t, r.length = spec.tile_type_width t) ∧
      (∀ g i, mget (blankTileMatrix spec t) g i = false)) ∧
    (∀ p, (p, TileType.ramB) ∈ getTileTypes spec →
      (blankConfig spec).lookupBram p =
        some (List.replicate 16 (List.replicate 256 false)) ∧
      (∀ g i, mget (List.replicate 16 (List.replicate 256 false)) g i = false)) := by
  refine ⟨rfl, rfl, rfl, rfl, rfl, rfl, ?_, ?_⟩
  · intro p t hmem
    refine ⟨lookupTile_blank spec p t hnd hmem, by simp [blankTileMatrix], ?_, ?_⟩
    · intro r hr
      rw [List.eq_of_mem_replicate hr]
      simp
    · intro g i
      exact mget_replicate _ _ g i
  · intro p hmem
    exact ⟨lookupBram_blank spec p hnd hmem, fun g i => mget_replicate _ _ g i⟩

/-- Witness for the C9 theorem on the 8k device and its blank state. -/
theorem clear_blank_state_witness :
    Configuration.clear (spec8k []) (blankConfig (spec8k [])) =
      blankConfig (spec8k []) ∧
    (blankConfig (spec8k [])).comment = [] ∧
    (blankConfig (spec8k [])).extra_bits = [] ∧
    (blankConfig (spec8k [])).freq_range = FreqRange.low ∧
    (blankConfig (spec8k [])).warmboot = true ∧
    (blankConfig (spec8k [])).nosleep = false ∧
    (∀ p t, (p, t) ∈ getTileTypes (spec8k []) →
      (blankConfig (spec8k [])).lookupTile p =
        some (t, blankTileMatrix (spec8k []) t) ∧
      (blankTileMatrix (spec8k []) t).length = (spec8k []).tile_height ∧
      (∀ r ∈ blankTileMatrix (spec8k []) t,
        r.length = (spec8k []).tile_type_width t) ∧
      (∀ g i, mget (blankTileMatrix (spec8k []) t) g i = false)) ∧
    (∀ p, (p, TileType.ramB) ∈ getTileTypes (spec8k []) →
      (blankConfig (spec8k [])).lookupBram p =
        some (List.replicate 16 (List.replicate 256 false)) ∧
      (∀ g i, mget (List.replicate 16 (List.replicate 256 false)) g i = false)) :=
  clear_blank_state (spec8k []) (blankConfig (spec8k [])) (nodup_positions_8k [])

/-! ### Binary codec theorems -/

/-- C1: the source `write_bin` is truncated -- after the warmboot command
it only leaves comments where the bank geometry and data commands should
be -- so the serialized stream never depends on the tiles, block memories
or extra bits, and the binary round-trip cannot restore them.  Two
configurations agreeing on the four scalar fields serialize identically;
the blank 8k configuration serializes to just comment framing, preamble,
frequency, CRC-reset and warmboot commands. -/
theorem write_bin_ignores_tiles (c1 c2 : Configuration)
    (hc : c1.comment = c2.comment) (hf : c1.freq_range = c2.freq_range)
    (hw : c1.warmboot = c2.warmboot) (hn : c1.nosleep = c2.nosleep) :
    writeBin c1 = writeBin c2 ∧
    writeBin (blankConfig (spec8k [])) =
      [255, 0, 0, 255, 126, 170, 153, 126, 81, 0, 1, 5, 146, 0, 32] := by
  constructor
  · unfold writeBin
    rw [hc, hf, hw, hn]
  · rfl

/-- Witness for C1: the blank 8k configuration and the same configuration
with one logic-tile bit set produce identical binary streams. -/
theorem write_bin_ignores_tiles_witness :
    writeBin (blankConfig (spec8k [])) =
      writeBin ((blankConfig (spec8k [])).setTile ⟨1, 1⟩
        (mset (blankTileMatrix (spec8k []) TileType.logic) 0 0 true)) ∧
    writeBin (blankConfig (spec8k [])) =
      [255, 0, 0, 255, 126, 170, 153, 126, 81, 0, 1, 5, 146, 0, 32] :=
  write_bin_ignores_tiles (blankConfig (spec8k []))
    ((blankConfig (spec8k [])).setTile ⟨1, 1⟩
      (mset (blankTileMatrix (spec8k []) TileType.logic) 0 0 true))
    rfl rfl rfl rfl

/-- C5: flipping the warmboot payload byte (0x20 to 0x21) in the stream
written for the blank configuration does not make read_bin fail: the
truncated write_bin never emits a CRC-check command, so the parse succeeds
and silently reads back warmboot and nosleep both set. -/
theorem crc_not_enforced_on_flip :
    writeBin (blankConfig (spec8k [])) =
      [255, 0, 0, 255, 126, 170, 153, 126, 81, 0, 1, 5, 146, 0, 32] ∧
    (readBinParse (spec8k []) (blankConfig (spec8k []))
        [255, 0, 0, 255, 126, 170, 153, 126, 81, 0, 1, 5, 146, 0, 33]).map
      (fun r => (r.2.cfgWarmboot, r.2.cfgNosleep)) = Except.ok (true, true) := by
  constructor
  · rfl
  · rfl

set_option maxHeartbeats 1600000 in
/-- **C10.** In the `read_bin` command loop, end of input reached exactly at
a command boundary (before a command byte) terminates parsing normally even
if no wakeup command was seen; end of input inside a command payload, inside
bank data, or inside the expected two-byte trailer after bank data is the
distinct end-of-input condition (EOFError), not the malformed-bitstream one. -/
theorem read_bin_eof_boundaries :
    (∀ st : CmdState, cmdLoop st [] = Except.ok st) ∧
    (∀ (st : CmdState) (cmd : Nat) (rest : List Nat),
      rest.length < cmd &&& 0xF →
      cmdLoop st (cmd :: rest) = Except.error BinErr.eof) ∧
    (∀ (st : CmdState) (w h b : Nat) (rest1 : List Nat),
      st.bankWidth = some w → st.bankHeight = some h → (b = 1 ∨ b = 3) →
      rest1.length < w * h / 8 →
      cmdLoop st (0x01 :: b :: rest1) = Except.error BinErr.eof) ∧
    (∀ (st : CmdState) (w h b nr off : Nat) (data tl : List Nat),
      st.bankWidth = some w → st.bankHeight = some h →
      st.bankNr = some nr → st.bankOffset = some off → (b = 1 ∨ b = 3) →
      data.length = w * h / 8 → tl.length < 2 →
      cmdLoop st (0x01 :: b :: (data ++ tl)) = Except.error BinErr.eof) := by
  refine ⟨fun st => rfl, ?_, ?_, ?_⟩
  · intro st cmd rest h
    simp only [cmdLoop, List.length_cons, cmdLoopFuel]
    simp [h]
  · intro st w h b rest1 hw hh hb hlen
    simp only [cmdLoop, List.length_cons, cmdLoopFuel]
    simp [hw, hh, hb, hlen]
  · intro st w h b nr off data tl hw hh hnr hoff hb hd htl
    simp only [cmdLoop, List.length_cons, cmdLoopFuel]
    simp [hw, hh, hnr, hoff, hb, ← hd, List.take_left, List.drop_left, htl]

/-- Closed instances of the end-of-input boundary facts on a concrete
state: empty input, a truncated payload, truncated bank data, and a
truncated trailer. -/
theorem read_bin_eof_boundaries_witness :
    cmdLoop eofProbeState [] = Except.ok eofProbeState ∧
    cmdLoop eofProbeState [0x52, 0] = Except.error BinErr.eof ∧
    cmdLoop eofProbeState [0x01, 1, 0] = Except.error BinErr.eof ∧
    cmdLoop eofProbeState [0x01, 1, 0, 0, 0] = Except.error BinErr.eof := by
  refine ⟨read_bin_eof_boundaries.1 eofProbeState, ?_, ?_, ?_⟩
  · exact read_bin_eof_boundaries.2.1 eofProbeState 0x52 [0] (by decide)
  · exact read_bin_eof_boundaries.2.2.1 eofProbeState 8 2 1 [0] rfl rfl
      (Or.inl rfl) (by decide)
  · exact read_bin_eof_boundaries.2.2.2 eofProbeState 8 2 1 0 0 [0, 0] [0] rfl rfl
      rfl rfl (Or.inl rfl) (by decide) (by decide)

/-! ### Facts about the asc line reader -/

lemma splitFirstLine_no_nl (s : List Char) (h : '\n' ∉ s) :
    splitFirstLine s = (s, []) := by
  induction s with
  | nil => rfl
  | cons c rest ih =>
    have hc : ¬(c = '\n') := fun e => h (by rw [e]; exact List.mem_cons_self _ _)
    simp [splitFirstLine, hc, ih (fun m => h (List.mem_cons_of_mem c m))]

lemma splitFirstLine_append (l s : List Char) (h : '\n' ∉ l) :
    splitFirstLine (l ++ '\n' :: s) = (l ++ ['\n'], s) := by
  induction l with
  | nil => simp [splitFirstLine]
  | cons c rest ih =>
    have hc : ¬(c = '\n') := fun e => h (by rw [e]; exact List.mem_cons_self _ _)
    simp [splitFirstLine, hc, ih (fun m => h (List.mem_cons_of_mem c m))]

lemma splitFirstLine_snd_lt (s : List Char) (h : s ≠ []) :
    (splitFirstLine s).2.length < s.length := by
  induction s with
  | nil => exact absurd rfl h
  | cons c rest ih =>
    by_cases hc : c = '\n'
    · simp [splitFirstLine, hc]
    · simp only [splitFirstLine, if_neg hc]
      cases rest with
      | nil => simp [splitFirstLine]
      | cons d r =>
        have := ih (by simp)
        simp only [List.length_cons] at this ⊢
        omega

lemma readTileRowsAux_length : ∀ (count : Nat) (m : List (List Bool)) (i : Nat)
    (s : List Char) (r : List (List Bool) × List Char),
    readTileRowsAux m i count s = Except.ok r → r.2.length ≤ s.length := by
  intro count
  induction count with
  | zero =>
    intro m i s r h
    simp only [readTileRowsAux] at h
    cases h
    exact Nat.le_refl _
  | succ count ih =>
    intro m i s r h
    cases s with
    | nil =>
      simp only [readTileRowsAux] at h
      exact absurd h (by simp)
    | cons c s0 =>
      simp only [readTileRowsAux] at h
      by_cases hm : i < m.length
      · rw [dif_pos hm] at h
        by_cases hl : (pyStrip (splitFirstLine (c :: s0)).1).length <
            (m.get ⟨i, hm⟩).length
        · rw [if_pos hl] at h
          cases h
        · rw [if_neg hl] at h
          have h1 := ih _ _ _ _ h
          have h2 := splitFirstLine_snd_lt (c :: s0) (by simp)
          omega
      · rw [dif_neg hm] at h
        cases h

lemma readRamRowsAux_length : ∀ (count : Nat) (m : List (List Bool)) (i : Nat)
    (s : List Char) (r : List (List Bool) × List Char),
    readRamRowsAux m i count s = Except.ok r → r.2.length ≤ s.length := by
  intro count
  induction count with
  | zero =>
    intro m i s r h
    simp only [readRamRowsAux] at h
    cases h
    exact Nat.le_refl _
  | succ count ih =>
    intro m i s r h
    cases s with
    | nil =>
      simp only [readRamRowsAux] at h
      exact absurd h (by simp)
    | cons c s0 =>
      simp only [readRamRowsAux] at h
      by_cases hm : i < m.length
      · rw [dif_pos hm] at h
        by_cases hl : (pyStrip (splitFirstLine (c :: s0)).1).length < 64
        · rw [if_pos hl] at h
          cases h
        · rw [if_neg hl] at h
          rcases hdig : (List.range 64).mapM
              (fun k => hexDigitVal ((pyStrip (splitFirstLine (c :: s0)).1).getD
                (63 - k) ' ')) with _ | digits
          · simp only [hdig] at h
            exact absurd h (by simp)
          · simp only [hdig] at h
            by_cases hr : (m.get ⟨i, hm⟩).length < 256
            · rw [if_pos hr] at h
              cases h
            · rw [if_neg hr] at h
              have h1 := ih _ _ _ _ h
              have h2 := splitFirstLine_snd_lt (c :: s0) (by simp)
              omega

      · rw [dif_neg hm] at h
        cases h

lemma exceptBind_ok {α β ε : Type} (a : α) (f : α → Except ε β) :
    (Except.ok a >>= f) = f a := rfl

lemma exceptBind_err {α β ε : Type} (e : ε) (f : α → Except ε β) :
    ((Except.error e : Except ε α) >>= f) = Except.error e := rfl

lemma processEntry_length (spec : DeviceSpec) (cfg : Configuration)
    (line rest : List Char) (r : Bool × Configuration × List Char)
    (h : processEntry spec cfg line rest = Except.ok r) :
    r.2.2.length ≤ rest.length := by
  unfold processEntry at h
  split at h
  · cases h
    exact Nat.le_refl _
  · split at h
    · cases h
    · dsimp only at h
      split at h
      · rcases hx : getIntArg (pySplitWs _) 1 with e | x <;> rw [hx] at h
        · cases h
        · rcases hy : getIntArg (pySplitWs _) 2 with e | y <;> rw [hy] at h
          · cases h
          · simp only [exceptBind_ok] at h
            split at h
            · cases h
            · rcases ht : readTileRowsAux _ 0 16 rest with e | rr <;> rw [ht] at h
              · cases h
              · simp only [exceptBind_ok] at h
                cases h
                exact readTileRowsAux_length _ _ _ _ _ ht
      · split at h
        · rcases hx : getIntArg (pySplitWs _) 1 with e | x <;> rw [hx] at h
          · cases h
          · rcases hy : getIntArg (pySplitWs _) 2 with e | y <;> rw [hy] at h
            · cases h
            · simp only [exceptBind_ok] at h
              split at h
              · cases h
              · rcases ht : readRamRowsAux _ 0 16 rest with e | rr <;> rw [ht] at h
                · cases h
                · simp only [exceptBind_ok] at h
                  cases h
                  exact readRamRowsAux_length _ _ _ _ _ ht
        · split at h
          · rcases hx : getIntArg (pySplitWs _) 1 with e | x <;> rw [hx] at h
            · cases h
            · rcases hy : getIntArg (pySplitWs _) 2 with e | y <;> rw [hy] at h
              · cases h
              · rcases hz : getIntArg (pySplitWs _) 3 with e | z <;> rw [hz] at h
                · cases h
                · simp only [exceptBind_ok] at h
                  cases h
                  exact Nat.le_refl _
          · split at h
            · cases h
              exact Nat.le_refl _
            · split at h
              · split at h
                · cases h
                · split at h
                  · cases h
                  · cases h
                    exact Nat.le_refl _
              · split at h
                · cases h
                · split at h
                  · cases h
                    exact Nat.le_refl _
                  · cases h

lemma readAscFuel_congr (spec : DeviceSpec) : ∀ (f g : Nat) (inC : Bool)
    (cfg : Configuration) (com : List (List Char)) (s : List Char),
    s.length < f → s.length < g →
    readAscFuel spec f inC cfg com s = readAscFuel spec g inC cfg com s := by
  intro f
  induction f with
  | zero => intro g inC cfg com s hf; omega
  | succ f ih =>
    intro g inC cfg com s hf hg
    cases g with
    | zero => omega
    | succ g =>
      cases s with
      | nil => rfl
      | cons c s0 =>
        simp only [readAscFuel]
        have hlt := splitFirstLine_snd_lt (c :: s0) (by simp)
        simp only [List.length_cons] at hf hg hlt
        split
        · apply ih
          · omega
          · omega
        · rcases hpe : processEntry spec cfg (splitFirstLine (c :: s0)).1
            (splitFirstLine (c :: s0)).2 with e | r
          · rfl
          · have hr := processEntry_length _ _ _ _ _ hpe
            apply ih
            · omega
            · omega

lemma readAscFuel_entry_ok (spec : DeviceSpec) (fuel : Nat) (inC : Bool)
    (cfg : Configuration) (com : List (List Char)) (s : List Char)
    (r : Bool × Configuration × List Char)
    (hne : s ≠ [])
    (hif : inC = true → startsWithDot (pyLStrip (splitFirstLine s).1) = true)
    (hpe : processEntry spec cfg (splitFirstLine s).1 (splitFirstLine s).2 =
      Except.ok r) :
    readAscFuel spec (fuel + 1) inC cfg com s =
      readAscFuel spec fuel r.1 r.2.1 com r.2.2 := by
  cases s with
  | nil => exact absurd rfl hne
  | cons c s0 =>
    have hcond : ¬(inC = true ∧
        ¬startsWithDot (pyLStrip (splitFirstLine (c :: s0)).1) = true) :=
      fun hc => hc.2 (hif hc.1)
    simp only [readAscFuel, hpe]
    rw [if_neg hcond]

lemma readAscFuel_entry_err (spec : DeviceSpec) (fuel : Nat) (inC : Bool)
    (cfg : Configuration) (com : List (List Char)) (s : List Char) (e : AscErr)
    (hne : s ≠ [])
    (hif : inC = true → startsWithDot (pyLStrip (splitFirstLine s).1) = true)
    (hpe : processEntry spec cfg (splitFirstLine s).1 (splitFirstLine s).2 =
      Except.error e) :
    readAscFuel spec (fuel + 1) inC cfg com s = Except.error e := by
  cases s with
  | nil => exact absurd rfl hne
  | cons c s0 =>
    have hcond : ¬(inC = true ∧
        ¬startsWithDot (pyLStrip (splitFirstLine (c :: s0)).1) = true) :=
      fun hc => hc.2 (hif hc.1)
    simp only [readAscFuel, hpe]
    rw [if_neg hcond]

lemma readAscFuel_comment_line (spec : DeviceSpec) (fuel : Nat)
    (cfg : Configuration) (com : List (List Char)) (s : List Char)
    (hne : s ≠ [])
    (hdot : startsWithDot (pyLStrip (splitFirstLine s).1) = false) :
    readAscFuel spec (fuel + 1) true cfg com s =
      readAscFuel spec fuel true cfg (com ++ [(splitFirstLine s).1])
        (splitFirstLine s).2 := by
  cases s with
  | nil => exact absurd rfl hne
  | cons c s0 =>
    simp only [readAscFuel]
    rw [if_pos]
    exact ⟨trivial, by rw [hdot]; exact Bool.false_ne_true⟩

/-! ### Facts about stripping and splitting -/

lemma pyLStrip_cons (c : Char) (s : List Char) (hc : isPySpace c = false) :
    pyLStrip (c :: s) = c :: s := by
  simp [pyLStrip, List.dropWhile_cons, hc]

lemma pyRStrip_eq_self (s : List Char) (c : Char) (hl : s.getLast? = some c)
    (hc : isPySpace c = false) : pyRStrip s = s := by
  have hh : s.reverse.head? = some c := by
    rw [List.head?_reverse, hl]
  cases hr : s.reverse with
  | nil => rw [hr] at hh; cases hh
  | cons d t =>
    rw [hr] at hh
    have hd : d = c := by simpa using hh
    subst hd
    unfold pyRStrip
    rw [hr, List.dropWhile_cons, hc]
    simp only [Bool.false_eq_true, if_false]
    rw [← hr, List.reverse_reverse]

lemma pySplitAux_all_nonspace (t : List Char) :
    ∀ acc : List Char, (∀ c ∈ t, isPySpace c = false) → (t ≠ [] ∨ acc ≠ []) →
    pySplitAux t acc = [acc.reverse ++ t] := by
  induction t with
  | nil =>
    intro acc _ hne
    rcases hne with h | h
    · exact absurd rfl h
    · simp [pySplitAux, h]
  | cons c t ih =>
    intro acc hns _
    have hc : isPySpace c = false := hns c (List.mem_cons_self _ _)
    simp only [pySplitAux, hc, Bool.false_eq_true, if_false]
    rw [ih (c :: acc) (fun d hd => hns d (List.mem_cons_of_mem c hd)) (Or.inr (by simp))]
    simp

/-! ### The warmboot entry always fails -/

lemma processEntry_device_8k (cfg : Configuration) (rest : List Char) :
    processEntry (spec8k []) cfg (".device 8k\n".toList) rest =
      Except.ok (false, cfg, rest) := rfl

lemma processEntry_warmboot (spec : DeviceSpec) (cfg : Configuration)
    (arg rest : List Char) (h1 : arg ≠ [])
    (h2 : ∀ ch ∈ arg, isPySpace ch = false) :
    processEntry spec cfg (".warmboot ".toList ++ arg) rest =
      Except.error AscErr.nameError := by
  obtain ⟨c, hc⟩ : ∃ c, arg.getLast? = some c := by
    cases hg : arg.getLast? with
    | none => exact absurd (List.getLast?_eq_none_iff.mp hg) h1
    | some c => exact ⟨c, rfl⟩
  have hcm : c ∈ arg := by
    have hh : arg.reverse.head? = some c := by rw [List.head?_reverse, hc]
    rcases hr : arg.reverse with _ | ⟨d, t⟩
    · rw [hr] at hh
      cases hh
    · rw [hr] at hh
      have hd : d = c := by simpa using hh
      subst hd
      rw [← List.mem_reverse, hr]
      exact List.mem_cons_self _ _
  have hstrip : pyStrip (".warmboot ".toList ++ arg) = ".warmboot ".toList ++ arg := by
    unfold pyStrip
    rw [show (".warmboot ".toList ++ arg) = '.' :: ("warmboot ".toList ++ arg) from rfl]
    rw [pyLStrip_cons _ _ (by decide)]
    apply pyRStrip_eq_self _ c _ (h2 c hcm)
    rw [show ('.' : Char) :: ("warmboot ".toList ++ arg) =
      (".warmboot ".toList ++ arg) from rfl]
    rw [List.getLast?_append_of_ne_nil _ h1]
    exact hc
  have hsplit : pySplitWs ('.' :: 'w' :: 'a' :: 'r' :: 'm' :: 'b' :: 'o' :: 'o' ::
      't' :: ' ' :: arg) = [".warmboot".toList, arg] := by
    show pySplitAux _ [] = _
    simp only [pySplitAux, isPySpace]
    norm_num
    rw [pySplitAux_all_nonspace arg [] h2 (Or.inl h1)]
    simp
  unfold processEntry
  rw [hstrip]
  rw [show (".warmboot ".toList ++ arg) = '.' :: 'w' :: 'a' :: 'r' :: 'm' ::
    'b' :: 'o' :: 'o' :: 't' :: ' ' :: arg from rfl]
  simp only [hsplit]
  rfl

/-- **C7.** The spec says a `.warmboot` directive with argument `enabled`
or `disabled` sets the warmboot flag and parsing continues.  In the code
the branch reads the undefined name `part` instead of `parts`, so every
`.warmboot` line — whatever its argument — raises a NameError: for any
non-empty whitespace-free argument, parsing a file consisting of a valid
device line followed by the warmboot directive fails with the NameError
condition instead of setting the flag. -/
theorem warmboot_directive_crashes (c0 : Configuration) (arg : List Char)
    (h1 : arg ≠ []) (h2 : ∀ ch ∈ arg, isPySpace ch = false) :
    Configuration.readAsc (spec8k []) c0
      (".device 8k\n.warmboot ".toList ++ arg) =
      Except.error AscErr.nameError := by
  have hsform : (".device 8k\n.warmboot ".toList ++ arg) =
      ".device 8k".toList ++ '\n' :: (".warmboot ".toList ++ arg) := rfl
  have hsl1 : splitFirstLine
      (".device 8k".toList ++ '\n' :: (".warmboot ".toList ++ arg)) =
      (".device 8k\n".toList, ".warmboot ".toList ++ arg) := by
    rw [splitFirstLine_append _ _ (by decide)]
    rfl
  have hne1 : (".device 8k".toList ++ '\n' :: (".warmboot ".toList ++ arg)) ≠ [] := by
    simp
  have hif1 : (false = true →
      startsWithDot (pyLStrip (splitFirstLine (".device 8k".toList ++ '\n' ::
        (".warmboot ".toList ++ arg))).1) = true) := by
    intro h
    cases h
  have hpe1 : processEntry (spec8k []) (Configuration.clear (spec8k []) c0)
      (splitFirstLine (".device 8k".toList ++ '\n' ::
        (".warmboot ".toList ++ arg))).1
      (splitFirstLine (".device 8k".toList ++ '\n' ::
        (".warmboot ".toList ++ arg))).2 =
      Except.ok (false, Configuration.clear (spec8k []) c0,
        ".warmboot ".toList ++ arg) := by
    rw [hsl1]
    exact processEntry_device_8k _ _
  have hnl2 : '\n' ∉ (".warmboot ".toList ++ arg) := by
    intro hm
    rcases List.mem_append.mp hm with h | h
    · exact absurd h (by decide)
    · have := h2 _ h
      simp [isPySpace] at this
  have hsl2 : splitFirstLine (".warmboot ".toList ++ arg) =
      (".warmboot ".toList ++ arg, []) := splitFirstLine_no_nl _ hnl2
  have hne2 : (".warmboot ".toList ++ arg) ≠ [] := by simp
  have hif2 : (false = true →
      startsWithDot (pyLStrip (splitFirstLine
        (".warmboot ".toList ++ arg)).1) = true) := by
    intro h
    cases h
  have hpe2 : processEntry (spec8k []) (Configuration.clear (spec8k []) c0)
      (splitFirstLine (".warmboot ".toList ++ arg)).1
      (splitFirstLine (".warmboot ".toList ++ arg)).2 =
      Except.error AscErr.nameError := by
    rw [hsl2]
    exact processEntry_warmboot _ _ _ _ h1 h2
  unfold Configuration.readAsc
  rw [hsform]
  rw [readAscFuel_entry_ok (spec8k []) _ false _ [] _ _ hne1 hif1 hpe1]
  rw [readAscFuel_congr (spec8k [])
    (".device 8k".toList ++ '\n' :: (".warmboot ".toList ++ arg)).length
    ((".warmboot ".toList ++ arg).length + 1) false _ [] _
    (by dsimp only; simp only [List.length_append, List.length_cons]; omega)
    (by dsimp only; omega)]
  rw [readAscFuel_entry_err (spec8k []) _ false _ [] _ _ hne2 hif2 hpe2]

/-- Closed instance: the file `.device 8k` + `.warmboot enabled` fails with
the NameError condition. -/
theorem warmboot_directive_crashes_witness :
    Configuration.readAsc (spec8k []) (blankConfig (spec8k []))
      (".device 8k\n.warmboot ".toList ++ "enabled".toList) =
      Except.error AscErr.nameError :=
  warmboot_directive_crashes (blankConfig (spec8k [])) ("enabled".toList)
    (by decide) (by decide)

end IceBoard
